import Mathlib

/-!
Shallow embedding of the firedpy event-classification engine
(src/firedpy/functions.py): the per-tile EventGrid classifier
(get_availables, get_spatial_window, get_event_perimeters,
merge_perimeters, add_event_grid), the per-tile table construction with
edgeCheck, and the cross-tile stitching pass of ModelBuilder.buildEvents
(spCheck and the edge-id merge loop).

Machine values that are Python ints/floats are modelled as Int (all values
exercised by the development are integral, and the code performs only
comparisons, subtraction and absolute values on them).  Python dicts are
modelled as association lists whose entry order is never observed by the
code (only membership, lookup and update are used), and Python exceptions
as an explicit error type.
-/

namespace Firedpy

/-- A classified point: (y geographic coordinate, x geographic coordinate,
burn day), mirroring the tuples `(float(ys[i]), float(xs[i]), float(vals[i]))`
used as event-grid keys and perimeter coordinates. -/
abbrev Pt := Int × Int × Int

/-- An element of a perimeter's `coords` list.  Normally a point tuple;
after a merge the obsolete perimeter's coords become the two-element list
`["Merged with event {id}", old_points_list]`, so the element type also has
a notice-string form (carrying the survivor id that is formatted into the
string) and a nested-list form. -/
inductive Coord where
  | pt (p : Pt)
  | notice (eid : Nat)
  | plist (ps : List Coord)

mutual

/-- Decidable equality for coordinate-list elements (manual, because the
type nests `List Coord`). -/
def Coord.deq : (a b : Coord) → Decidable (a = b)
  | .pt p, .pt q =>
      match decEq p q with
      | isTrue h => isTrue (by rw [h])
      | isFalse h => isFalse (by intro hh; cases hh; exact h rfl)
  | .pt _, .notice _ => isFalse (by intro h; cases h)
  | .pt _, .plist _ => isFalse (by intro h; cases h)
  | .notice _, .pt _ => isFalse (by intro h; cases h)
  | .notice a, .notice b =>
      match decEq a b with
      | isTrue h => isTrue (by rw [h])
      | isFalse h => isFalse (by intro hh; cases hh; exact h rfl)
  | .notice _, .plist _ => isFalse (by intro h; cases h)
  | .plist _, .pt _ => isFalse (by intro h; cases h)
  | .plist _, .notice _ => isFalse (by intro h; cases h)
  | .plist as, .plist bs =>
      match Coord.deqList as bs with
      | isTrue h => isTrue (by rw [h])
      | isFalse h => isFalse (by intro hh; cases hh; exact h rfl)

/-- Decidable equality on lists of coordinate elements. -/
def Coord.deqList : (as bs : List Coord) → Decidable (as = bs)
  | [], [] => isTrue rfl
  | [], _ :: _ => isFalse (by intro h; cases h)
  | _ :: _, [] => isFalse (by intro h; cases h)
  | a :: as, b :: bs =>
      match Coord.deq a b with
      | isFalse h => isFalse (by intro hh; cases hh; exact h rfl)
      | isTrue h =>
        match Coord.deqList as bs with
        | isTrue h2 => isTrue (by rw [h, h2])
        | isFalse h2 => isFalse (by intro hh; cases hh; exact h2 rfl)

end

instance : DecidableEq Coord := Coord.deq

/-- Python runtime errors the modelled code can raise. -/
inductive PyErr where
  | typeError
  | indexError
  | nameError
deriving DecidableEq, Repr

/-- True for elements that are plain point tuples. -/
def Coord.isPt : Coord → Bool
  | .pt _ => true
  | _ => false

/-- True for elements that are hashable as Python dict keys (tuples and
strings are hashable, lists are not). -/
def Coord.hashable : Coord → Bool
  | .plist _ => false
  | _ => true

/-- The EventGridMap: Python dict from coordinate tuples to event ids,
as an association list.  Entry order is never observed by the code. -/
abbrev Grid := List (Coord × Nat)

/-- Dict lookup: value of the (unique) entry with the given key. -/
def gridLookup : Grid → Coord → Option Nat
  | [], _ => none
  | e :: rest, c => if e.1 = c then some e.2 else gridLookup rest c

/-- Dict update `d[c] = v`: replaces the value stored at key `c`
(or inserts it).  Represented by prepending after removing the key;
the code never iterates over the dict, so entry order is unobservable. -/
def gridUpdate (g : Grid) (c : Coord) (v : Nat) : Grid :=
  (c, v) :: g.filter (fun e => decide (e.1 ≠ c))

/-! ### List indexing in Python style -/

/-- Element at position `n`, with a default (used only in statements and
after index validity has been established). -/
def nthD {α : Type} : List α → Nat → α → α
  | [], _, d => d
  | a :: _, 0, _ => a
  | _ :: l, n + 1, d => nthD l n d

/-- Replace the element at position `n` (identity when out of range). -/
def setNth {α : Type} : List α → Nat → α → List α
  | [], _, _ => []
  | _ :: l, 0, a => a :: l
  | b :: l, n + 1, a => b :: setNth l n a

/-- Python list-index resolution: non-negative indices address from the
front, negative indices from the back, anything else is an IndexError. -/
def pyResolve (len : Nat) (i : Int) : Option Nat :=
  if 0 ≤ i ∧ i < (len : Int) then some i.toNat
  else if -(len : Int) ≤ i ∧ i < 0 then some (((len : Int) + i).toNat)
  else none

/-- Python `l[i]`. -/
def pyIdx {α : Type} (l : List α) (d : α) (i : Int) : Option α :=
  match pyResolve l.length i with
  | some n => some (nthD l n d)
  | none => none

/-- Python `l[i] = a` (only ever evaluated after a successful `pyIdx`). -/
def pySet {α : Type} (l : List α) (i : Int) (a : α) : List α :=
  match pyResolve l.length i with
  | some n => setNth l n a
  | none => l

/-! ### EventPerimeter and the per-tile classifier state -/

/-- An EventPerimeter: an id, the merge tombstone marker (`np.nan`,
i.e. unset, while the perimeter is live) and the coordinate list. -/
structure Perim where
  event_id : Nat
  merge_id : Option Nat
  coords : List Coord
deriving DecidableEq

instance : Inhabited Perim := ⟨⟨0, none, []⟩⟩

/-- The mutable per-tile classifier state of `EventGrid.get_event_perimeters`:
the EventGridMap, the `next_event_id` counter and the perimeter list. -/
structure EGState where
  event_grid : Grid
  next_event_id : Nat
  perimeters : List Perim
deriving DecidableEq

deriving instance DecidableEq for Except

/-- Initial state: empty grid, `next_event_id = 1`, no perimeters. -/
def initState : EGState := ⟨[], 1, []⟩

/-- `EventGrid.add_event_grid`: register each new point under `event_id`. -/
def add_event_grid (g : Grid) (event_id : Nat) : List Pt → Grid
  | [] => g
  | p :: ps => add_event_grid (gridUpdate g (.pt p) event_id) event_id ps

/-- The dict-update loop of `merge_perimeters`
(`for p in new_pts: self.event_grid[p] = event_id`): updating with a tuple
or string key succeeds, a list key raises TypeError, leaving the updates
already performed in place. -/
def registerCoords (g : Grid) (event_id : Nat) : List Coord → Grid × Option PyErr
  | [] => (g, none)
  | .plist _ :: _ => (g, some .typeError)
  | c :: cs => registerCoords (gridUpdate g c event_id) event_id cs

/-- `EventGrid.merge_perimeters(perimeters, event_id, obsolete_id)`.
Returns the grid and perimeter list at the point the call finished or
raised, plus the raised error if any.  Step order mirrors the source:
set the obsolete perimeter's `merge_id`, re-point its coordinates in the
event grid, append them to the survivor, then replace the obsolete
perimeter's coords with `["Merged with event {id}", old_points]`. -/
def merge_perimeters (g : Grid) (perims : List Perim)
    (event_id obsolete_id : Nat) : (Grid × List Perim) × Option PyErr :=
  match pyIdx perims default ((obsolete_id : Int) - 1) with
  | none => ((g, perims), some .indexError)
  | some po =>
    let perims1 := pySet perims ((obsolete_id : Int) - 1)
      { po with merge_id := some event_id }
    let new_pts := po.coords
    match registerCoords g event_id new_pts with
    | (g1, some e) => ((g1, perims1), some e)
    | (g1, none) =>
      match pyIdx perims1 default ((event_id : Int) - 1) with
      | none => ((g1, perims1), some .indexError)
      | some pe =>
        let perims2 := pySet perims1 ((event_id : Int) - 1)
          { pe with coords := pe.coords ++ new_pts }
        match pyIdx perims2 default ((obsolete_id : Int) - 1) with
        | none => ((g1, perims2), some .indexError)
        | some po2 =>
          ((g1, pySet perims2 ((obsolete_id : Int) - 1)
            { po2 with coords := [.notice event_id, .plist new_pts] }), none)

/-- The candidate-partition loop of `get_event_perimeters`: walk the
candidate points, collecting distinct already-assigned event ids in
discovery order and unassigned points in order (with repetitions). -/
def partitionAux (g : Grid) (ids : List Nat) (new_pts : List Pt) :
    List Pt → List Nat × List Pt
  | [] => (ids, new_pts)
  | p :: ps =>
    match gridLookup g (.pt p) with
    | some i =>
        partitionAux g (if i ∈ ids then ids else ids ++ [i]) new_pts ps
    | none => partitionAux g ids (new_pts ++ [p]) ps

def partitionCands (g : Grid) (cands : List Pt) : List Nat × List Pt :=
  partitionAux g [] [] cands

/-- One decision step of `get_event_perimeters` for a single burn day of a
single cell, given the candidate point list: create a new perimeter,
extend the single matching perimeter, or merge the first two discovered
event ids (dropping no state on success; a raised Python error aborts the
whole classification). -/
def processBurn (st : EGState) (cands : List Pt) : Except PyErr EGState :=
  let pr := partitionCands st.event_grid cands
  match pr.1 with
  | [] =>
    .ok ⟨add_event_grid st.event_grid st.next_event_id pr.2,
         st.next_event_id + 1,
         st.perimeters ++ [⟨st.next_event_id, none, pr.2.map .pt⟩]⟩
  | [event_id] =>
    if pr.2 = [] then .ok st
    else
      match pyIdx st.perimeters default ((event_id : Int) - 1) with
      | none => .error .indexError
      | some pm =>
        .ok ⟨add_event_grid st.event_grid event_id pr.2,
             st.next_event_id,
             pySet st.perimeters ((event_id : Int) - 1)
               { pm with coords := pm.coords ++ pr.2.map .pt }⟩
  | e1 :: e2 :: _ =>
    match merge_perimeters st.event_grid st.perimeters e1 e2 with
    | (_, some e) => .error e
    | ((g1, perims1), none) => .ok ⟨g1, st.next_event_id, perims1⟩

/-- Run the classifier over a list of burn steps (candidate lists), in
order; a raised error aborts the run. -/
def runSteps (st : EGState) : List (List Pt) → Except PyErr EGState
  | [] => .ok st
  | c :: cs =>
    match processBurn st c with
    | .error e => .error e
    | .ok st' => runSteps st' cs

/-! ### The input array, the active-cell extractor and the spatial window -/

/-- A per-tile burn array `array[t, y, x]` with its coordinate vectors and
the two configuration parameters of `EventGrid`.  A value `≤ 0` means no
detection; a positive value is the burn day index. -/
structure BurnInput where
  nt : Nat
  ny : Nat
  nx : Nat
  val : Nat → Nat → Nat → Int
  ys : List Int
  xs : List Int
  spatial_param : Nat
  temporal_param : Int

/-- `input_array.max(dim="time")` at one cell (the time axis is non-empty
for any real tile; for an empty axis numpy would raise instead). -/
def timeMax (inp : BurnInput) (y x : Nat) : Int :=
  match (List.range inp.nt).map (fun t => inp.val t y x) with
  | [] => 0
  | d :: rest => rest.foldl max d

/-- Row-major enumeration of all cells, the order in which `np.where`
reports positions of a 2-D mask. -/
def rowMajor (ny nx : Nat) : List (Nat × Nat) :=
  (List.range ny).flatMap (fun y => (List.range nx).map (fun x => (y, x)))

/-- `EventGrid.get_availables`: the cells whose maximum over the time axis
is strictly positive, in `np.where` (row-major) order. -/
def get_availables (inp : BurnInput) : List (Nat × Nat) :=
  (rowMajor inp.ny inp.nx).filter (fun yx => decide (0 < timeMax inp yx.1 yx.2))

/-- The result of `EventGrid.get_spatial_window`: slice bounds, the
window-local center (possibly a negative Python index) and the full-grid
origin of the window. -/
structure WindowSpec where
  top : Int
  bottom : Int
  left : Int
  right : Int
  cy : Int
  cx : Int
  oy : Int
  ox : Int
deriving DecidableEq

/-- `EventGrid.get_spatial_window(y, x, [ny, nx])`.  The edge-case lists
`[0 + t for t in range(sp)]` and `[dim - t for t in range(sp)]` become the
interval conditions `0 ≤ v < sp` and `dim - sp < v ≤ dim`. -/
def get_spatial_window (sp : Int) (y x ny nx : Int) : WindowSpec :=
  let top := max 0 (y - sp)
  let bottom := min ny (y + sp)
  let left := max 0 (x - sp)
  let right := min nx (x + sp)
  let yc_oy : Int × Int :=
    if 0 ≤ y ∧ y < sp then (y, 0)
    else if ny - sp < y ∧ y ≤ ny then (y - ny, y - sp)
    else (sp, y - sp)
  let xc_ox : Int × Int :=
    if 0 ≤ x ∧ x < sp then (x, 0)
    else if nx - sp < x ∧ x ≤ nx then (x - nx, x - sp)
    else (sp, x - sp)
  ⟨top, bottom, left, right, yc_oy.1, xc_ox.1, yc_oy.2, xc_ox.2⟩

/-- Length of the Python slice `top : bottom+1` over an axis of length
`dim` (the slice end is clipped to the axis length). -/
def sliceLen (top bound dim : Int) : Int := min (bound + 1) dim - top

/-- Resolution of a (possibly negative) Python index against an axis of
length `h`. -/
def resolveIdx (h c : Int) : Int := if c < 0 then h + c else c

/-- Value of the extracted window `arr[:, top:bottom+1, left:right+1]` at
window position `(t, wy, wx)`. -/
def windowVal (inp : BurnInput) (w : WindowSpec) (t : Nat) (wy wx : Int) : Int :=
  inp.val t (w.top + wy).toNat (w.left + wx).toNat

/-- The center cell's positive burn days, in time order
(`center_burn = window[:, cy, cx]; center_burn[center_burn > 0]`). -/
def centerBurns (inp : BurnInput) (y x : Nat) : List Int :=
  let w := get_spatial_window inp.spatial_param y x inp.ny inp.nx
  let h := sliceLen w.top w.bottom inp.ny
  let wdt := sliceLen w.left w.right inp.nx
  (List.range inp.nt).filterMap (fun t =>
    let v := windowVal inp w t (resolveIdx h w.cy) (resolveIdx wdt w.cx)
    if 0 < v then some v else none)

/-- The candidate points of one burn day at one cell: all window positions
with `|burn - window| ≤ temporal_param`, enumerated like `np.where` on the
3-D difference array (t outermost, then window-y, then window-x), mapped
to geographic coordinates through the window origin and the coordinate
vectors. -/
def candList (inp : BurnInput) (y x : Nat) (burn : Int) : List Pt :=
  let w := get_spatial_window inp.spatial_param y x inp.ny inp.nx
  let h := sliceLen w.top w.bottom inp.ny
  let wdt := sliceLen w.left w.right inp.nx
  ((List.range inp.nt).flatMap (fun t =>
    (List.range h.toNat).flatMap (fun wy =>
      (List.range wdt.toNat).map (fun wx => (t, wy, wx))))).filterMap
    (fun twyx =>
      let v := windowVal inp w twyx.1 twyx.2.1 twyx.2.2
      if |burn - v| ≤ inp.temporal_param then
        some (nthD inp.ys (w.oy + twyx.2.1).toNat 0,
              nthD inp.xs (w.ox + twyx.2.2).toNat 0, v)
      else none)

/-- The full sequence of burn steps the classifier executes on a tile:
for each available cell in extractor order, one step per positive burn day
at that cell. -/
def eventSteps (inp : BurnInput) : List (List Pt) :=
  (get_availables inp).flatMap (fun yx =>
    (centerBurns inp yx.1 yx.2).map (candList inp yx.1 yx.2))

/-- `EventGrid.get_event_perimeters`: run all steps from the initial state
and return the perimeter list. -/
def get_event_perimeters (inp : BurnInput) : Except PyErr (List Perim) :=
  (runSteps initState (eventSteps inp)).map (fun st => st.perimeters)

/-! ### Per-tile event table construction (ModelBuilder.buildEvents) -/

/-- A row of a per-tile event table: local event id, burn day, geographic
coordinates and the edge flag. -/
structure TRow where
  id : Nat
  day : Int
  y : Int
  x : Int
  edge : Bool
deriving DecidableEq

/-- `edgeCheck(yedges, xedges, coord, sp_buffer)`: a point is an edge case
when its y coordinate is among the edge y values or its x coordinate is
among the edge x values (`sp_buffer` is accepted and unused, as in the
source). -/
def edgeCheck (yedges xedges : List Int) (y x : Int) (sp_buffer : Int) : Bool :=
  if y ∈ yedges then true
  else if x ∈ xedges then true
  else false

/-- Python `l[-n:]` for `n ≥ 0` (the whole list when `n = 0`). -/
def lastN (l : List Int) (n : Nat) : List Int :=
  if n = 0 then l else l.drop (l.length - n)

/-- The edge y values of `buildEvents`: `ys[:sp] + ys[-sp:]`. -/
def tileEdgesY (ys : List Int) (sp : Nat) : List Int := ys.take sp ++ lastN ys sp

/-- The edge x values of `buildEvents`: `xs[-sp:] + xs[:sp]`. -/
def tileEdgesX (xs : List Int) (sp : Nat) : List Int := lastN xs sp ++ xs.take sp

/-- The rows `buildEvents` produces for one live perimeter, given its point
list: per-point edge flags, promoted to all-`True` when any point of the
event is an edge case (`if any(edge): edge = [True for e in edge]`). -/
def perimRows (yedges xedges : List Int) (sp_buffer : Int) (event_id : Nat)
    (pts : List Pt) : List TRow :=
  pts.map (fun q =>
    ⟨event_id, q.2.2, q.1, q.2.1,
     if pts.any (fun r => edgeCheck yedges xedges r.1 r.2.1 sp_buffer) then true
     else edgeCheck yedges xedges q.1 q.2.1 sp_buffer⟩)

/-! ### The cross-tile stitching pass (ModelBuilder.buildEvents) -/

/-- A row of the concatenated edge table in `buildEvents`: global id
(`tile + "_" + local_id`), day index, and geographic coordinates. -/
structure SRow where
  id : String
  day : Int
  y : Int
  x : Int
deriving DecidableEq

/-- Stitcher configuration: `temporal_param` and
`sp_buf = spatial_param * resolution`. -/
structure StitchCfg where
  tp : Int
  buf : Int

/-- A merge performed by the stitching loop: the scanned id, the candidate
id, and whether the candidate's rows were relabelled to the scanned id
(`d1 < d12`) rather than the reverse. -/
structure MergeEv where
  scanned : String
  cand : String
  candIntoScanned : Bool
deriving DecidableEq

/-- `spCheck(diffs, sp_buf)`: keep the differences inside the buffer, then
Python `any` over the kept values, which is an any-nonzero test (so a
difference of exactly 0 never counts). -/
def spCheck (diffs : List Int) (sp_buf : Int) : Bool :=
  (diffs.filter (fun e => decide (|e| < sp_buf))).any (fun e => decide (e ≠ 0))

/-- The per-pair spatial adjacency test of the stitcher: some row of `edf`
passes `spCheck` against the candidate's rows on both axes at once
(`checks[i] = ychecks[i] * xchecks[i]; any(checks)`). -/
def boxAdj (edf edf2 : List SRow) (sp_buf : Int) : Bool :=
  edf.any (fun r =>
    spCheck (edf2.map (fun r2 => r.y - r2.y)) sp_buf &&
    spCheck (edf2.map (fun r2 => r.x - r2.x)) sp_buf)

/-- Distinct elements in first-occurrence order (`pandas.unique`). -/
def dedupFirst (l : List String) : List String :=
  l.foldl (fun acc i => if i ∈ acc then acc else acc ++ [i]) []

/-- `min(days)` over a non-empty list (0 for the empty list, which the
stitcher never asks for). -/
def minD : List Int → Int
  | [] => 0
  | a :: r => r.foldl min a

/-- `max(days)` over a non-empty list. -/
def maxD : List Int → Int
  | [] => 0
  | a :: r => r.foldl max a

/-- One candidate (`iden2`) step inside the stitcher's scan of `iden`:
re-filter the candidate's current rows, test spatial adjacency against the
snapshot `edf` taken at the start of the scan, and on adjacency relabel
using the (possibly stale) `d1` of the snapshot. -/
def innerStep (cfg : StitchCfg) (iden : String) (d1 : Int) (edf : List SRow)
    (st : List SRow × List MergeEv) (iden2 : String) :
    List SRow × List MergeEv :=
  let edges := st.1
  let edf2 := edges.filter (fun r => decide (r.id = iden2))
  if boxAdj edf edf2 cfg.buf then
    let d12 := minD (edf2.map (fun r => r.day))
    if d1 < d12 then
      (edges.map (fun r => if r.id = iden2 then { r with id := iden } else r),
       st.2 ++ [⟨iden, iden2, true⟩])
    else
      (edges.map (fun r => if r.id = iden then { r with id := iden2 } else r),
       st.2 ++ [⟨iden, iden2, false⟩])
  else st

/-- One scanned-id step of the stitcher: compute the day range of the
scanned id's current rows (keeping the previous range when they are empty,
as the `try/except: pass` does), filter temporal candidates, and fold the
candidate merges. -/
def outerStep (cfg : StitchCfg)
    (st : List SRow × Option (Int × Int) × List MergeEv) (iden : String) :
    Except PyErr (List SRow × Option (Int × Int) × List MergeEv) :=
  let edges := st.1
  let edf := edges.filter (fun r => decide (r.id = iden))
  let days := edf.map (fun r => r.day)
  match days, st.2.1 with
  | [], none => .error .nameError
  | [], some (d1, d2) =>
    let edf2 := (edges.filter (fun r => decide (r.id ≠ iden))).filter
      (fun r => decide (|r.day - d1| < cfg.tp) || decide (|r.day - d2| < cfg.tp))
    let eids2 := dedupFirst (edf2.map (fun r => r.id))
    let res := eids2.foldl (innerStep cfg iden d1 edf) (edges, st.2.2)
    .ok (res.1, some (d1, d2), res.2)
  | d :: rest, _ =>
    let d1 := rest.foldl min d
    let d2 := rest.foldl max d
    let edf2 := (edges.filter (fun r => decide (r.id ≠ iden))).filter
      (fun r => decide (|r.day - d1| < cfg.tp) || decide (|r.day - d2| < cfg.tp))
    let eids2 := dedupFirst (edf2.map (fun r => r.id))
    let res := eids2.foldl (innerStep cfg iden d1 edf) (edges, st.2.2)
    .ok (res.1, some (d1, d2), res.2)

/-- Fold the scanned-id steps over the edge-id list. -/
def runOuter (cfg : StitchCfg)
    (st : List SRow × Option (Int × Int) × List MergeEv) :
    List String → Except PyErr (List SRow × Option (Int × Int) × List MergeEv)
  | [] => .ok st
  | i :: rest =>
    match outerStep cfg st i with
    | .error e => .error e
    | .ok st' => runOuter cfg st' rest

/-- The stitcher's merge loop: one pass over the distinct edge ids of the
initial table, in first-occurrence order, merging as it goes.  Returns the
relabelled edge table and the log of merges performed. -/
def stitchPass (cfg : StitchCfg) (edges0 : List SRow) :
    Except PyErr (List SRow × List MergeEv) :=
  match runOuter cfg (edges0, none, []) (dedupFirst (edges0.map (fun r => r.id))) with
  | .error e => .error e
  | .ok st => .ok (st.1, st.2.2)

/-- The rows of one surviving id in a stitched table. -/
def clusterRows (rows : List SRow) (i : String) : List SRow :=
  rows.filter (fun r => decide (r.id = i))

/-- Two surviving ids of a stitched table that are still adjacent by the
code's own criteria: both non-empty, some pair of their points within the
spatial buffer on both axes, and one's day within `temporal_param` of the
other's day-range endpoints. -/
def stillAdjacent (cfg : StitchCfg) (rows : List SRow) (i1 i2 : String) : Prop :=
  i1 ≠ i2 ∧ clusterRows rows i1 ≠ [] ∧ clusterRows rows i2 ≠ [] ∧
  (∃ r1 ∈ clusterRows rows i1, ∃ r2 ∈ clusterRows rows i2,
    |r1.y - r2.y| < cfg.buf ∧ |r1.x - r2.x| < cfg.buf) ∧
  (∃ r2 ∈ clusterRows rows i2,
    |r2.day - minD ((clusterRows rows i1).map (fun r => r.day))| < cfg.tp ∨
    |r2.day - maxD ((clusterRows rows i1).map (fun r => r.day))| < cfg.tp)

instance (cfg : StitchCfg) (rows : List SRow) (i1 i2 : String) :
    Decidable (stillAdjacent cfg rows i1 i2) := by
  unfold stillAdjacent
  infer_instance

/-! ### Invariants of the per-tile classifier state -/

/-- Every entry of the EventGridMap maps to an event id that addresses a
live (non-tombstoned) perimeter of the current perimeter list. -/
def gridLive (st : EGState) : Prop :=
  ∀ e ∈ st.event_grid,
    1 ≤ e.2 ∧ e.2 ≤ st.perimeters.length ∧
    (nthD st.perimeters (e.2 - 1) default).merge_id = none

/-- The perimeter list is positionally aligned with event ids: the
perimeter stored at index `i` carries `event_id = i + 1`, and
`next_event_id` is one past the end. -/
def perimAligned (st : EGState) : Prop :=
  (∀ i < st.perimeters.length,
    (nthD st.perimeters i default).event_id = i + 1) ∧
  st.next_event_id = st.perimeters.length + 1

/-- Every EventGridMap entry's key occurs in the coords of the perimeter
its id addresses. -/
def gridInCoords (st : EGState) : Prop :=
  ∀ e ∈ st.event_grid,
    e.1 ∈ (nthD st.perimeters (e.2 - 1) default).coords

/-- Live perimeters hold only point tuples in their coords. -/
def liveCoordsPts (st : EGState) : Prop :=
  ∀ i < st.perimeters.length,
    (nthD st.perimeters i default).merge_id = none →
    ∀ c ∈ (nthD st.perimeters i default).coords, c.isPt = true

/-- Every coordinate of a live perimeter is registered in the
EventGridMap. -/
def liveCoordsReg (st : EGState) : Prop :=
  ∀ i < st.perimeters.length,
    (nthD st.perimeters i default).merge_id = none →
    ∀ c ∈ (nthD st.perimeters i default).coords,
      gridLookup st.event_grid c ≠ none

/-- The classifier-state invariant maintained by every burn step. -/
def Inv (st : EGState) : Prop :=
  perimAligned st ∧ gridLive st ∧ gridInCoords st ∧
  liveCoordsPts st ∧ liveCoordsReg st

/-! ### The window-locator correctness predicate (for claim C5) -/

/-- Lexicographic row-major order on cells. -/
def rmLt (a b : Nat × Nat) : Prop :=
  a.1 < b.1 ∨ (a.1 = b.1 ∧ a.2 < b.2)

/-- Correctness of one `get_spatial_window` call: the extracted slice is
non-empty and clipped inside the grid on both axes (so never wrapped),
indexing the window at the (Python-resolved) returned center reaches
exactly the cell `(y, x)`, the returned origin coincides with the window's
top-left corner, and the window is full-size in the interior and strictly
smaller near the tile borders. -/
def windowOk (sp y x ny nx : Int) : Prop :=
  let w := get_spatial_window sp y x ny nx
  let h := sliceLen w.top w.bottom ny
  let wd := sliceLen w.left w.right nx
  0 ≤ w.top ∧ w.top + h ≤ ny ∧ 0 < h ∧
  0 ≤ w.left ∧ w.left + wd ≤ nx ∧ 0 < wd ∧
  0 ≤ resolveIdx h w.cy ∧ resolveIdx h w.cy < h ∧
  w.top + resolveIdx h w.cy = y ∧
  0 ≤ resolveIdx wd w.cx ∧ resolveIdx wd w.cx < wd ∧
  w.left + resolveIdx wd w.cx = x ∧
  w.oy = w.top ∧ w.ox = w.left ∧
  h ≤ 2 * sp + 1 ∧ wd ≤ 2 * sp + 1 ∧
  (y < sp → h = y + sp + 1) ∧
  (ny ≤ y + sp → h = ny - y + sp) ∧
  (sp ≤ y → y + sp < ny → h = 2 * sp + 1) ∧
  (x < sp → wd = x + sp + 1) ∧
  (nx ≤ x + sp → wd = nx - x + sp) ∧
  (sp ≤ x → x + sp < nx → wd = 2 * sp + 1)

/-! ### Concrete inputs used to settle the claims -/

/-- A 5-step, 2 x 3 tile (spatial_param 1, temporal_param 5) on which the
classifier creates two events and then merges them while discarding a
fresh candidate point: cell (0,0) burns on day 105, cell (1,1) on days 110
and 115, cell (0,2) on day 120 and cell (1,2) on day 112. -/
def mergeDropInput : BurnInput :=
  ⟨5, 2, 3,
   fun t y x =>
     if t = 0 ∧ y = 0 ∧ x = 0 then 105
     else if t = 1 ∧ y = 1 ∧ x = 1 then 110
     else if t = 2 ∧ y = 1 ∧ x = 1 then 115
     else if t = 3 ∧ y = 0 ∧ x = 2 then 120
     else if t = 4 ∧ y = 1 ∧ x = 2 then 112
     else 0,
   [0, 1], [0, 1, 2], 1, 5⟩

/-- A one-row tile with a single day-3 detection at cell (0,0), whose
x-neighbour never burns (temporal_param 5). -/
def zeroJoinInput : BurnInput :=
  ⟨1, 1, 2, fun t y x => if t = 0 ∧ y = 0 ∧ x = 0 then 3 else 0,
   [0], [10, 11], 1, 5⟩

/-- Stitcher configuration with `temporal_param = 11` and spatial buffer 5
used by the concrete stitching runs. -/
def exCfg : StitchCfg := ⟨11, 5⟩

/-- Edge rows of three per-tile events: b (day 18 at (4,4)), a (day 0 at
(0,0)) and c (day 8 at (-4,-4)); a is box-adjacent to both others, c only
to a. -/
def chainRows : List SRow :=
  [⟨"b", 18, 4, 4⟩, ⟨"a", 0, 0, 0⟩, ⟨"c", 8, -4, -4⟩]

/-- Edge rows of events Y (two day-3 rows at (1,0) and (0,1)), X (day 5 at
(0,0)) and Z (day 14 at (-1,-1)). -/
def staleRows : List SRow :=
  [⟨"Y", 3, 1, 0⟩, ⟨"Y", 3, 0, 1⟩, ⟨"X", 5, 0, 0⟩, ⟨"Z", 14, -1, -1⟩]

/-- The two-adjacent-tile scenario: tile A's edge detection on day 50 and
tile B's on day 52, one cell apart on each axis. -/
def twoTileRows : List SRow :=
  [⟨"A_1", 50, 0, 10⟩, ⟨"B_1", 52, 1, 11⟩]

/-- The classifier state of `mergeDropInput` just before its merging burn
step (i.e. after the first two burn steps, which created events 1 and 2). -/
def mergeStepState : EGState :=
  match runSteps initState ((eventSteps mergeDropInput).take 2) with
  | .ok st => st
  | .error _ => initState

/-- The candidate list of `mergeDropInput`'s third burn step (cell (1,1),
burn day 110), whose candidates span events 1 and 2 plus the fresh point
(1, 2, 112). -/
def mergeStepCands : List Pt := nthD (eventSteps mergeDropInput) 2 []

/-- Example coordinate vectors for the per-tile table construction. -/
def exYs : List Int := [10, 11, 12, 13]

/-- Example x coordinate vector for the per-tile table construction. -/
def exXs : List Int := [20, 21, 22, 23]

/-! ## Lemmas about the basic operations -/

theorem mem_gridUpdate {g : Grid} {c : Coord} {v : Nat} {e : Coord × Nat} :
    e ∈ gridUpdate g c v ↔ e = (c, v) ∨ (e ∈ g ∧ e.1 ≠ c) := by
  unfold gridUpdate
  simp [List.mem_filter]

theorem gridLookup_filter_ne (g : Grid) (c c' : Coord) (h : c' ≠ c) :
    gridLookup (g.filter (fun e => decide (e.1 ≠ c))) c' = gridLookup g c' := by
  induction g with
  | nil => rfl
  | cons e rest ih =>
    by_cases he : e.1 = c
    · have he' : e.1 ≠ c' := fun hc => h (hc ▸ he)
      have hf : (e :: rest).filter (fun x => decide (x.1 ≠ c))
          = rest.filter (fun x => decide (x.1 ≠ c)) := by
        simp [List.filter_cons, he]
      rw [hf, ih]
      simp [gridLookup, he']
    · have hf : (e :: rest).filter (fun x => decide (x.1 ≠ c))
          = e :: rest.filter (fun x => decide (x.1 ≠ c)) := by
        simp [List.filter_cons, he]
      rw [hf]
      simp only [gridLookup, ih]

theorem gridLookup_gridUpdate (g : Grid) (c : Coord) (v : Nat) (c' : Coord) :
    gridLookup (gridUpdate g c v) c' =
      if c' = c then some v else gridLookup g c' := by
  unfold gridUpdate
  by_cases h : c' = c
  · simp [gridLookup, h]
  · have hne : ¬ (c = c') := fun hh => h hh.symm
    simp only [gridLookup, hne, if_false, if_neg h]
    exact gridLookup_filter_ne g c c' h

theorem mem_of_gridLookup {g : Grid} {c : Coord} {v : Nat}
    (h : gridLookup g c = some v) : (c, v) ∈ g := by
  induction g with
  | nil => simp [gridLookup] at h
  | cons e rest ih =>
    by_cases he : e.1 = c
    · simp only [gridLookup, he, if_true, Option.some.injEq] at h
      obtain ⟨k, w⟩ := e
      simp only at he
      subst he
      simp only at h
      subst h
      exact List.mem_cons_self _ _
    · simp only [gridLookup, he, if_false] at h
      exact List.mem_cons_of_mem _ (ih h)

theorem gridLookup_ne_none_gridUpdate {g : Grid} {c : Coord}
    (h : gridLookup g c ≠ none) (c' : Coord) (v : Nat) :
    gridLookup (gridUpdate g c' v) c ≠ none := by
  rw [gridLookup_gridUpdate]
  by_cases hc : c = c' <;> simp [hc, h]

theorem length_setNth {α : Type} (l : List α) (n : Nat) (a : α) :
    (setNth l n a).length = l.length := by
  induction l generalizing n with
  | nil => rfl
  | cons b l ih =>
    cases n with
    | zero => rfl
    | succ m => simp [setNth, ih]

theorem nthD_setNth_eq {α : Type} (l : List α) (n : Nat) (a d : α)
    (h : n < l.length) : nthD (setNth l n a) n d = a := by
  induction l generalizing n with
  | nil => simp at h
  | cons b l ih =>
    cases n with
    | zero => rfl
    | succ m =>
      simp only [setNth, nthD]
      exact ih m (by simpa using h)

theorem nthD_setNth_ne {α : Type} (l : List α) (n m : Nat) (a d : α)
    (h : m ≠ n) : nthD (setNth l n a) m d = nthD l m d := by
  induction l generalizing n m with
  | nil => rfl
  | cons b l ih =>
    cases n with
    | zero =>
      cases m with
      | zero => exact absurd rfl h
      | succ k => rfl
    | succ n' =>
      cases m with
      | zero => rfl
      | succ k => exact ih n' k (fun hh => h (by rw [hh]))

theorem nthD_append_lt {α : Type} (l l2 : List α) (i : Nat) (d : α)
    (h : i < l.length) : nthD (l ++ l2) i d = nthD l i d := by
  induction l generalizing i with
  | nil => simp at h
  | cons b l ih =>
    cases i with
    | zero => rfl
    | succ k =>
      simp only [List.cons_append, nthD]
      exact ih k (by simpa using h)

theorem nthD_append_self {α : Type} (l : List α) (a d : α) :
    nthD (l ++ [a]) l.length d = a := by
  induction l with
  | nil => rfl
  | cons b l ih => simpa [nthD] using ih

theorem map_setNth {α β : Type} (f : α → β) (l : List α) (n : Nat) (a : α) :
    (setNth l n a).map f = setNth (l.map f) n (f a) := by
  induction l generalizing n with
  | nil => rfl
  | cons b l ih =>
    cases n with
    | zero => rfl
    | succ m => simp [setNth, ih]

theorem setNth_self {α : Type} (l : List α) (n : Nat) (d : α)
    (h : n < l.length) : setNth l n (nthD l n d) = l := by
  induction l generalizing n with
  | nil => rfl
  | cons b l ih =>
    cases n with
    | zero => rfl
    | succ m => simp [setNth, nthD, ih m (by simpa using h)]

theorem pyResolve_of_lt {len : Nat} {k : Nat} (h : k < len) :
    pyResolve len (k : Int) = some k := by
  unfold pyResolve
  have h0 : (0 : Int) ≤ (k : Int) := Int.ofNat_nonneg k
  have h1 : (k : Int) < (len : Int) := by exact_mod_cast h
  simp [h0, h1]

theorem pyIdx_eventId {α : Type} (l : List α) (d : α) {e : Nat}
    (h1 : 1 ≤ e) (h2 : e ≤ l.length) :
    pyIdx l d ((e : Int) - 1) = some (nthD l (e - 1) d) := by
  have hk : ((e : Int) - 1) = ((e - 1 : Nat) : Int) := by omega
  have hlt : e - 1 < l.length := by omega
  rw [pyIdx, hk, pyResolve_of_lt hlt]

theorem pySet_eventId {α : Type} (l : List α) (a : α) {e : Nat}
    (h1 : 1 ≤ e) (h2 : e ≤ l.length) :
    pySet l ((e : Int) - 1) a = setNth l (e - 1) a := by
  have hk : ((e : Int) - 1) = ((e - 1 : Nat) : Int) := by omega
  have hlt : e - 1 < l.length := by omega
  rw [pySet, hk, pyResolve_of_lt hlt]

theorem setNth_setNth_same {α : Type} (l : List α) (n : Nat) (a b : α) :
    setNth (setNth l n a) n b = setNth l n b := by
  induction l generalizing n with
  | nil => rfl
  | cons c l ih =>
    cases n with
    | zero => rfl
    | succ m => simp [setNth, ih]

theorem setNth_comm {α : Type} (l : List α) (n m : Nat) (a b : α)
    (h : m ≠ n) : setNth (setNth l n a) m b = setNth (setNth l m b) n a := by
  induction l generalizing n m with
  | nil => rfl
  | cons c l ih =>
    cases n with
    | zero =>
      cases m with
      | zero => exact absurd rfl h
      | succ k => rfl
    | succ n' =>
      cases m with
      | zero => rfl
      | succ k => simp [setNth, ih n' k (fun hh => h (by rw [hh]))]

theorem gridLookup_add_event_grid (g : Grid) (eid : Nat) (pts : List Pt)
    (c : Coord) :
    gridLookup (add_event_grid g eid pts) c =
      if ∃ p ∈ pts, c = Coord.pt p then some eid else gridLookup g c := by
  induction pts generalizing g with
  | nil => simp [add_event_grid]
  | cons p ps ih =>
    rw [add_event_grid, ih]
    by_cases hps : ∃ q ∈ ps, c = Coord.pt q
    · simp [hps]
    · by_cases hp : c = Coord.pt p
      · simp [hps, hp, gridLookup_gridUpdate]
      · simp [hps, hp, gridLookup_gridUpdate]

theorem mem_add_event_grid {g : Grid} {eid : Nat} {pts : List Pt}
    {e : Coord × Nat} :
    e ∈ add_event_grid g eid pts ↔
      ((∃ p ∈ pts, e.1 = Coord.pt p) ∧ e.2 = eid) ∨
      (e ∈ g ∧ ∀ p ∈ pts, e.1 ≠ Coord.pt p) := by
  induction pts generalizing g with
  | nil => simp [add_event_grid]
  | cons p ps ih =>
    rw [add_event_grid, ih]
    have hu : e ∈ gridUpdate g (Coord.pt p) eid ↔
        (e.1 = Coord.pt p ∧ e.2 = eid) ∨ (e ∈ g ∧ e.1 ≠ Coord.pt p) := by
      rw [mem_gridUpdate, Prod.ext_iff]
    rw [hu]
    constructor
    · rintro (⟨⟨q, hq, hq2⟩, he⟩ | ⟨(⟨h1, h2⟩ | ⟨hg, hne⟩), hall⟩)
      · exact Or.inl ⟨⟨q, List.mem_cons_of_mem _ hq, hq2⟩, he⟩
      · exact Or.inl ⟨⟨p, List.mem_cons_self _ _, h1⟩, h2⟩
      · refine Or.inr ⟨hg, ?_⟩
        intro q hq
        rcases List.mem_cons.mp hq with h | h
        · subst h; exact hne
        · exact hall q h
    · rintro (⟨⟨q, hq, hq2⟩, he⟩ | ⟨hg, hall⟩)
      · rcases List.mem_cons.mp hq with h | h
        · subst h
          by_cases hps : ∃ r ∈ ps, e.1 = Coord.pt r
          · exact Or.inl ⟨hps, he⟩
          · exact Or.inr ⟨Or.inl ⟨hq2, he⟩,
              fun r hr hcon => hps ⟨r, hr, hcon⟩⟩
        · exact Or.inl ⟨⟨q, h, hq2⟩, he⟩
      · exact Or.inr ⟨Or.inr ⟨hg, hall p (List.mem_cons_self _ _)⟩,
          fun q hq => hall q (List.mem_cons_of_mem _ hq)⟩

theorem gridLookup_ne_none_add_event_grid {g : Grid} {c : Coord}
    (h : gridLookup g c ≠ none) (eid : Nat) (pts : List Pt) :
    gridLookup (add_event_grid g eid pts) c ≠ none := by
  rw [gridLookup_add_event_grid]
  by_cases hc : ∃ p ∈ pts, c = Coord.pt p <;> simp [hc, h]

theorem registerCoords_err (g : Grid) (eid : Nat) (cs : List Coord)
    (h : ∀ c ∈ cs, c.hashable = true) :
    (registerCoords g eid cs).2 = none := by
  induction cs generalizing g with
  | nil => rfl
  | cons c0 cs ih =>
    have h0 := h c0 (List.mem_cons_self _ _)
    have hrest := fun c hc => h c (List.mem_cons_of_mem _ hc)
    cases c0 with
    | pt p => exact ih _ hrest
    | notice n => exact ih _ hrest
    | plist ps => simp [Coord.hashable] at h0

theorem gridLookup_registerCoords (g : Grid) (eid : Nat) (cs : List Coord)
    (h : ∀ c ∈ cs, c.hashable = true) (c : Coord) :
    gridLookup (registerCoords g eid cs).1 c =
      if c ∈ cs then some eid else gridLookup g c := by
  induction cs generalizing g with
  | nil => simp [registerCoords]
  | cons c0 cs ih =>
    have h0 := h c0 (List.mem_cons_self _ _)
    have hrest := fun c hc => h c (List.mem_cons_of_mem _ hc)
    have step : ∀ g' : Grid,
        (registerCoords g' eid (c0 :: cs)).1 =
        (registerCoords (gridUpdate g' c0 eid) eid cs).1 := by
      intro g'
      cases c0 with
      | pt p => rfl
      | notice n => rfl
      | plist ps => simp [Coord.hashable] at h0
    rw [step, ih _ hrest]
    by_cases hcs : c ∈ cs
    · simp [hcs]
    · by_cases hc0 : c = c0
      · simp [hcs, hc0, gridLookup_gridUpdate]
      · simp [hcs, hc0, gridLookup_gridUpdate]

theorem mem_registerCoords {g : Grid} {eid : Nat} {cs : List Coord}
    (h : ∀ c ∈ cs, c.hashable = true) {e : Coord × Nat} :
    e ∈ (registerCoords g eid cs).1 ↔
      (e.1 ∈ cs ∧ e.2 = eid) ∨ (e ∈ g ∧ e.1 ∉ cs) := by
  induction cs generalizing g with
  | nil => simp [registerCoords]
  | cons c0 cs ih =>
    have h0 := h c0 (List.mem_cons_self _ _)
    have hrest := fun c hc => h c (List.mem_cons_of_mem _ hc)
    have step : (registerCoords g eid (c0 :: cs)).1 =
        (registerCoords (gridUpdate g c0 eid) eid cs).1 := by
      cases c0 with
      | pt p => rfl
      | notice n => rfl
      | plist ps => simp [Coord.hashable] at h0
    rw [step, ih hrest]
    have hu : e ∈ gridUpdate g c0 eid ↔
        (e.1 = c0 ∧ e.2 = eid) ∨ (e ∈ g ∧ e.1 ≠ c0) := by
      rw [mem_gridUpdate, Prod.ext_iff]
    rw [hu]
    simp only [List.mem_cons]
    tauto

theorem gridLookup_ne_none_registerCoords {g : Grid} {c : Coord}
    (hg : gridLookup g c ≠ none) {eid : Nat} {cs : List Coord}
    (h : ∀ c ∈ cs, c.hashable = true) :
    gridLookup (registerCoords g eid cs).1 c ≠ none := by
  rw [gridLookup_registerCoords g eid cs h]
  by_cases hc : c ∈ cs <;> simp [hc, hg]

theorem partitionAux_ids (g : Grid) (cs : List Pt) :
    ∀ ids0 new0, (∀ i ∈ ids0, ∃ c, gridLookup g c = some i) →
    ∀ i ∈ (partitionAux g ids0 new0 cs).1, ∃ c, gridLookup g c = some i := by
  induction cs with
  | nil => intro ids0 new0 h; simpa [partitionAux] using h
  | cons p ps ih =>
    intro ids0 new0 h
    rw [partitionAux]
    cases hl : gridLookup g (Coord.pt p) with
    | none => exact ih _ _ h
    | some j =>
      apply ih
      intro i hi
      by_cases hj : j ∈ ids0
      · rw [if_pos hj] at hi; exact h i hi
      · rw [if_neg hj] at hi
        rcases List.mem_append.mp hi with hi | hi
        · exact h i hi
        · simp only [List.mem_singleton] at hi
          subst hi
          exact ⟨_, hl⟩

theorem partitionAux_nodup (g : Grid) (cs : List Pt) :
    ∀ ids0 new0, ids0.Nodup → (partitionAux g ids0 new0 cs).1.Nodup := by
  induction cs with
  | nil => intro ids0 new0 h; simpa [partitionAux] using h
  | cons p ps ih =>
    intro ids0 new0 h
    rw [partitionAux]
    cases hl : gridLookup g (Coord.pt p) with
    | none => exact ih _ _ h
    | some j =>
      apply ih
      by_cases hj : j ∈ ids0
      · rw [if_pos hj]; exact h
      · rw [if_neg hj]
        simp [List.nodup_append, h, hj]

theorem partitionAux_new (g : Grid) (cs : List Pt) :
    ∀ ids0 new0, (∀ p ∈ new0, gridLookup g (Coord.pt p) = none) →
    ∀ p ∈ (partitionAux g ids0 new0 cs).2, gridLookup g (Coord.pt p) = none := by
  induction cs with
  | nil => intro ids0 new0 h; simpa [partitionAux] using h
  | cons p ps ih =>
    intro ids0 new0 h
    rw [partitionAux]
    cases hl : gridLookup g (Coord.pt p) with
    | none =>
      apply ih
      intro q hq
      rcases List.mem_append.mp hq with hq | hq
      · exact h q hq
      · simp only [List.mem_singleton] at hq
        subst hq
        exact hl
    | some j => exact ih _ _ h

theorem partitionCands_ids {g : Grid} {cs : List Pt} {i : Nat}
    (hi : i ∈ (partitionCands g cs).1) : ∃ c, gridLookup g c = some i :=
  partitionAux_ids g cs [] [] (by simp) i hi

theorem partitionCands_nodup (g : Grid) (cs : List Pt) :
    (partitionCands g cs).1.Nodup :=
  partitionAux_nodup g cs [] [] (by simp)

theorem partitionCands_new {g : Grid} {cs : List Pt} {p : Pt}
    (hp : p ∈ (partitionCands g cs).2) : gridLookup g (Coord.pt p) = none :=
  partitionAux_new g cs [] [] (by simp) p hp

theorem merge_perimeters_ok (g : Grid) (perims : List Perim) (e1 e2 : Nat)
    (h11 : 1 ≤ e1) (h12 : e1 ≤ perims.length)
    (h21 : 1 ≤ e2) (h22 : e2 ≤ perims.length) (hne : e1 ≠ e2)
    (hh : ∀ c ∈ (nthD perims (e2 - 1) default).coords, c.hashable = true) :
    merge_perimeters g perims e1 e2 =
      (((registerCoords g e1 (nthD perims (e2 - 1) default).coords).1,
        setNth (setNth perims (e1 - 1)
          { nthD perims (e1 - 1) default with
            coords := (nthD perims (e1 - 1) default).coords ++
                      (nthD perims (e2 - 1) default).coords })
          (e2 - 1)
          { nthD perims (e2 - 1) default with
            merge_id := some e1,
            coords := [Coord.notice e1,
                       Coord.plist (nthD perims (e2 - 1) default).coords] }),
       none) := by
  have hne1 : e1 - 1 ≠ e2 - 1 := by omega
  have hlt2 : e2 - 1 < perims.length := by omega
  have hpo : pyIdx perims default ((e2 : Int) - 1)
      = some (nthD perims (e2 - 1) default) :=
    pyIdx_eventId perims default h21 h22
  rcases hreg : registerCoords g e1 (nthD perims (e2 - 1) default).coords
    with ⟨g1, err⟩
  have herr : err = none := by
    have h0 := registerCoords_err g e1 (nthD perims (e2 - 1) default).coords hh
    rw [hreg] at h0
    exact h0
  subst herr
  have hset1 : pySet perims ((e2 : Int) - 1)
      { nthD perims (e2 - 1) default with merge_id := some e1 } =
      setNth perims (e2 - 1)
        { nthD perims (e2 - 1) default with merge_id := some e1 } :=
    pySet_eventId perims _ h21 h22
  unfold merge_perimeters
  rw [hpo]
  simp only [hset1, hreg]
  have hlen1 : (setNth perims (e2 - 1)
      { nthD perims (e2 - 1) default with merge_id := some e1 }).length
      = perims.length := length_setNth _ _ _
  have hIdx1 : pyIdx (setNth perims (e2 - 1)
      { nthD perims (e2 - 1) default with merge_id := some e1 }) default
      ((e1 : Int) - 1)
      = some (nthD perims (e1 - 1) default) := by
    rw [pyIdx_eventId _ default h11 (by simpa [length_setNth] using h12),
        nthD_setNth_ne _ _ _ _ _ hne1]
  rw [hIdx1]
  have hset2 : pySet (setNth perims (e2 - 1)
      { nthD perims (e2 - 1) default with merge_id := some e1 })
      ((e1 : Int) - 1)
      { nthD perims (e1 - 1) default with
        coords := (nthD perims (e1 - 1) default).coords ++
                  (nthD perims (e2 - 1) default).coords } =
      setNth (setNth perims (e2 - 1)
        { nthD perims (e2 - 1) default with merge_id := some e1 })
        (e1 - 1)
        { nthD perims (e1 - 1) default with
          coords := (nthD perims (e1 - 1) default).coords ++
                    (nthD perims (e2 - 1) default).coords } :=
    pySet_eventId _ _ h11 (by simpa [length_setNth] using h12)
  simp only [hset2]
  have hIdx3 : pyIdx (setNth (setNth perims (e2 - 1)
      { nthD perims (e2 - 1) default with merge_id := some e1 })
      (e1 - 1)
      { nthD perims (e1 - 1) default with
        coords := (nthD perims (e1 - 1) default).coords ++
                  (nthD perims (e2 - 1) default).coords }) default
      ((e2 : Int) - 1)
      = some { nthD perims (e2 - 1) default with merge_id := some e1 } := by
    rw [pyIdx_eventId _ default h21
        (by simpa [length_setNth] using h22),
      nthD_setNth_ne _ _ _ _ _ (fun hx => hne1 hx.symm),
      nthD_setNth_eq _ _ _ _ hlt2]
  rw [hIdx3]
  have hset3 : pySet (setNth (setNth perims (e2 - 1)
      { nthD perims (e2 - 1) default with merge_id := some e1 })
      (e1 - 1)
      { nthD perims (e1 - 1) default with
        coords := (nthD perims (e1 - 1) default).coords ++
                  (nthD perims (e2 - 1) default).coords })
      ((e2 : Int) - 1)
      { nthD perims (e2 - 1) default with
        merge_id := some e1,
        coords := [Coord.notice e1,
                   Coord.plist (nthD perims (e2 - 1) default).coords] } =
      setNth (setNth (setNth perims (e2 - 1)
        { nthD perims (e2 - 1) default with merge_id := some e1 })
        (e1 - 1)
        { nthD perims (e1 - 1) default with
          coords := (nthD perims (e1 - 1) default).coords ++
                    (nthD perims (e2 - 1) default).coords })
        (e2 - 1)
        { nthD perims (e2 - 1) default with
          merge_id := some e1,
          coords := [Coord.notice e1,
                     Coord.plist (nthD perims (e2 - 1) default).coords] } :=
    pySet_eventId _ _ h21 (by simpa [length_setNth] using h22)
  simp only [hset3]
  rw [setNth_comm _ _ _ _ _ hne1, setNth_setNth_same]

theorem inv_initState : Inv initState := by
  refine ⟨⟨?_, rfl⟩, ?_, ?_, ?_, ?_⟩
  · intro i hi; simp [initState] at hi
  · intro e he; simp [initState] at he
  · intro e he; simp [initState] at he
  · intro i hi; simp [initState] at hi
  · intro i hi; simp [initState] at hi

theorem inv_create {st : EGState} (h : Inv st) (new : List Pt) :
    Inv ⟨add_event_grid st.event_grid st.next_event_id new,
         st.next_event_id + 1,
         st.perimeters ++ [⟨st.next_event_id, none, new.map Coord.pt⟩]⟩ := by
  obtain ⟨⟨hal, hnext⟩, hlive, hcoords, hpts, hreg⟩ := h
  have hL : (st.perimeters ++
      [(⟨st.next_event_id, none, new.map Coord.pt⟩ : Perim)]).length
      = st.perimeters.length + 1 := by simp
  refine ⟨⟨?_, ?_⟩, ?_, ?_, ?_, ?_⟩
  · intro i hi
    rw [hL] at hi
    by_cases hiL : i < st.perimeters.length
    · rw [nthD_append_lt _ _ _ _ hiL]
      exact hal i hiL
    · have hieq : i = st.perimeters.length := by omega
      subst hieq
      rw [nthD_append_self]
      simpa using hnext
  · simp [hnext]
  · intro e he
    rw [mem_add_event_grid] at he
    rcases he with ⟨⟨p, hp, hep⟩, he2⟩ | ⟨heg, _⟩
    · refine ⟨by omega, ?_, ?_⟩
      · rw [hL, he2, hnext]
      · have : e.2 - 1 = st.perimeters.length := by omega
        rw [this, nthD_append_self]
    · obtain ⟨h1, h2, h3⟩ := hlive e heg
      refine ⟨h1, by rw [hL]; omega, ?_⟩
      rw [nthD_append_lt _ _ _ _ (by omega)]
      exact h3
  · intro e he
    rw [mem_add_event_grid] at he
    rcases he with ⟨⟨p, hp, hep⟩, he2⟩ | ⟨heg, _⟩
    · have : e.2 - 1 = st.perimeters.length := by omega
      rw [this, nthD_append_self]
      simp only []
      rw [hep]
      exact List.mem_map_of_mem _ hp
    · obtain ⟨h1, h2, _⟩ := hlive e heg
      rw [nthD_append_lt _ _ _ _ (by omega)]
      exact hcoords e heg
  · intro i hi hm c hc
    rw [hL] at hi
    by_cases hiL : i < st.perimeters.length
    · rw [nthD_append_lt _ _ _ _ hiL] at hm hc
      exact hpts i hiL hm c hc
    · have hieq : i = st.perimeters.length := by omega
      subst hieq
      rw [nthD_append_self] at hc
      simp only [] at hc
      obtain ⟨p, _, hp⟩ := List.mem_map.mp hc
      rw [← hp]
      rfl
  · intro i hi hm c hc
    rw [hL] at hi
    by_cases hiL : i < st.perimeters.length
    · rw [nthD_append_lt _ _ _ _ hiL] at hm hc
      exact gridLookup_ne_none_add_event_grid (hreg i hiL hm c hc) _ _
    · have hieq : i = st.perimeters.length := by omega
      subst hieq
      rw [nthD_append_self] at hc
      simp only [] at hc
      obtain ⟨p, hp, hpc⟩ := List.mem_map.mp hc
      rw [gridLookup_add_event_grid]
      have : ∃ q ∈ new, c = Coord.pt q := ⟨p, hp, hpc.symm⟩
      simp [this]

theorem Coord.hashable_of_isPt {c : Coord} (h : c.isPt = true) :
    c.hashable = true := by
  cases c <;> simp_all [Coord.isPt, Coord.hashable]

theorem inv_extend {st : EGState} (h : Inv st) {e : Nat}
    (he : ∃ c0, gridLookup st.event_grid c0 = some e) (new : List Pt) :
    Inv ⟨add_event_grid st.event_grid e new,
         st.next_event_id,
         setNth st.perimeters (e - 1)
           { nthD st.perimeters (e - 1) default with
             coords := (nthD st.perimeters (e - 1) default).coords ++
                       new.map Coord.pt }⟩ := by
  obtain ⟨⟨hal, hnext⟩, hlive, hcoords, hpts, hreg⟩ := h
  obtain ⟨c0, hc0⟩ := he
  obtain ⟨h1, h2, h3⟩ := hlive (c0, e) (mem_of_gridLookup hc0)
  simp only [] at h1 h2 h3
  have hlt : e - 1 < st.perimeters.length := by omega
  have hLs : (setNth st.perimeters (e - 1)
      { nthD st.perimeters (e - 1) default with
        coords := (nthD st.perimeters (e - 1) default).coords ++
                  new.map Coord.pt }).length = st.perimeters.length :=
    length_setNth _ _ _
  have hGet : nthD (setNth st.perimeters (e - 1)
      { nthD st.perimeters (e - 1) default with
        coords := (nthD st.perimeters (e - 1) default).coords ++
                  new.map Coord.pt }) (e - 1) default
      = { nthD st.perimeters (e - 1) default with
          coords := (nthD st.perimeters (e - 1) default).coords ++
                    new.map Coord.pt } :=
    nthD_setNth_eq _ _ _ _ hlt
  refine ⟨⟨?_, ?_⟩, ?_, ?_, ?_, ?_⟩
  · intro i hi
    rw [hLs] at hi
    by_cases hie : i = e - 1
    · subst hie
      rw [hGet]
      exact hal _ hlt
    · rw [nthD_setNth_ne _ _ _ _ _ hie]
      exact hal i hi
  · rw [hLs]
    exact hnext
  · intro en hen
    rw [mem_add_event_grid] at hen
    rcases hen with ⟨⟨p, hp, hep⟩, he2⟩ | ⟨heg, _⟩
    · rw [hLs, he2]
      refine ⟨h1, h2, ?_⟩
      rw [hGet]
      exact h3
    · obtain ⟨k1, k2, k3⟩ := hlive en heg
      rw [hLs]
      refine ⟨k1, k2, ?_⟩
      by_cases hke : en.2 - 1 = e - 1
      · rw [hke, hGet]
        have hpe : nthD st.perimeters (en.2 - 1) default
            = nthD st.perimeters (e - 1) default := by rw [hke]
        rw [hpe] at k3
        exact k3
      · rw [nthD_setNth_ne _ _ _ _ _ hke]
        exact k3
  · intro en hen
    rw [mem_add_event_grid] at hen
    rcases hen with ⟨⟨p, hp, hep⟩, he2⟩ | ⟨heg, _⟩
    · rw [he2, hGet]
      simp only []
      refine List.mem_append.mpr (Or.inr ?_)
      rw [hep]
      exact List.mem_map_of_mem _ hp
    · by_cases hke : en.2 - 1 = e - 1
      · rw [hke, hGet]
        simp only []
        refine List.mem_append.mpr (Or.inl ?_)
        have := hcoords en heg
        rw [hke] at this
        exact this
      · rw [nthD_setNth_ne _ _ _ _ _ hke]
        exact hcoords en heg
  · intro i hi hm c hc
    rw [hLs] at hi
    by_cases hie : i = e - 1
    · subst hie
      rw [hGet] at hm hc
      simp only [] at hm hc
      rcases List.mem_append.mp hc with hc | hc
      · exact hpts _ hlt hm c hc
      · obtain ⟨p, _, hp⟩ := List.mem_map.mp hc
        rw [← hp]
        rfl
    · rw [nthD_setNth_ne _ _ _ _ _ hie] at hm hc
      exact hpts i hi hm c hc
  · intro i hi hm c hc
    rw [hLs] at hi
    by_cases hie : i = e - 1
    · subst hie
      rw [hGet] at hm hc
      simp only [] at hm hc
      rcases List.mem_append.mp hc with hc | hc
      · exact gridLookup_ne_none_add_event_grid (hreg _ hlt hm c hc) _ _
      · obtain ⟨p, hp, hpc⟩ := List.mem_map.mp hc
        rw [gridLookup_add_event_grid]
        have : ∃ q ∈ new, c = Coord.pt q := ⟨p, hp, hpc.symm⟩
        simp [this]
    · rw [nthD_setNth_ne _ _ _ _ _ hie] at hm hc
      exact gridLookup_ne_none_add_event_grid (hreg i hi hm c hc) _ _

theorem inv_merge {st : EGState} (h : Inv st) {e1 e2 : Nat}
    (he1 : ∃ c0, gridLookup st.event_grid c0 = some e1)
    (he2 : ∃ c0, gridLookup st.event_grid c0 = some e2)
    (hne : e1 ≠ e2) :
    Inv ⟨(registerCoords st.event_grid e1
            (nthD st.perimeters (e2 - 1) default).coords).1,
         st.next_event_id,
         setNth (setNth st.perimeters (e1 - 1)
           { nthD st.perimeters (e1 - 1) default with
             coords := (nthD st.perimeters (e1 - 1) default).coords ++
                       (nthD st.perimeters (e2 - 1) default).coords })
           (e2 - 1)
           { nthD st.perimeters (e2 - 1) default with
             merge_id := some e1,
             coords := [Coord.notice e1,
                        Coord.plist (nthD st.perimeters (e2 - 1) default).coords] }⟩ := by
  obtain ⟨⟨hal, hnext⟩, hlive, hcoords, hpts, hreg⟩ := h
  obtain ⟨c1, hc1⟩ := he1
  obtain ⟨c2, hc2⟩ := he2
  obtain ⟨h11, h12, hlive1⟩ := hlive (c1, e1) (mem_of_gridLookup hc1)
  obtain ⟨h21, h22, hlive2⟩ := hlive (c2, e2) (mem_of_gridLookup hc2)
  simp only [] at h11 h12 hlive1 h21 h22 hlive2
  have hne1 : e1 - 1 ≠ e2 - 1 := by omega
  have hlt1 : e1 - 1 < st.perimeters.length := by omega
  have hlt2 : e2 - 1 < st.perimeters.length := by omega
  have hh : ∀ c ∈ (nthD st.perimeters (e2 - 1) default).coords,
      c.hashable = true :=
    fun c hc => Coord.hashable_of_isPt (hpts _ hlt2 hlive2 c hc)
  have hLs : (setNth (setNth st.perimeters (e1 - 1)
      { nthD st.perimeters (e1 - 1) default with
        coords := (nthD st.perimeters (e1 - 1) default).coords ++
                  (nthD st.perimeters (e2 - 1) default).coords })
      (e2 - 1)
      { nthD st.perimeters (e2 - 1) default with
        merge_id := some e1,
        coords := [Coord.notice e1,
                   Coord.plist (nthD st.perimeters (e2 - 1) default).coords]
      }).length = st.perimeters.length := by
    rw [length_setNth, length_setNth]
  have hGet2 : nthD (setNth (setNth st.perimeters (e1 - 1)
      { nthD st.perimeters (e1 - 1) default with
        coords := (nthD st.perimeters (e1 - 1) default).coords ++
                  (nthD st.perimeters (e2 - 1) default).coords })
      (e2 - 1)
      { nthD st.perimeters (e2 - 1) default with
        merge_id := some e1,
        coords := [Coord.notice e1,
                   Coord.plist (nthD st.perimeters (e2 - 1) default).coords]
      }) (e2 - 1) default
      = { nthD st.perimeters (e2 - 1) default with
          merge_id := some e1,
          coords := [Coord.notice e1,
                     Coord.plist (nthD st.perimeters (e2 - 1) default).coords]
        } :=
    nthD_setNth_eq _ _ _ _ (by rw [length_setNth]; exact hlt2)
  have hGet1 : nthD (setNth (setNth st.perimeters (e1 - 1)
      { nthD st.perimeters (e1 - 1) default with
        coords := (nthD st.perimeters (e1 - 1) default).coords ++
                  (nthD st.perimeters (e2 - 1) default).coords })
      (e2 - 1)
      { nthD st.perimeters (e2 - 1) default with
        merge_id := some e1,
        coords := [Coord.notice e1,
                   Coord.plist (nthD st.perimeters (e2 - 1) default).coords]
      }) (e1 - 1) default
      = { nthD st.perimeters (e1 - 1) default with
          coords := (nthD st.perimeters (e1 - 1) default).coords ++
                    (nthD st.perimeters (e2 - 1) default).coords } := by
    rw [nthD_setNth_ne _ _ _ _ _ hne1, nthD_setNth_eq _ _ _ _ hlt1]
  have hGetO : ∀ i, i ≠ e1 - 1 → i ≠ e2 - 1 →
      nthD (setNth (setNth st.perimeters (e1 - 1)
        { nthD st.perimeters (e1 - 1) default with
          coords := (nthD st.perimeters (e1 - 1) default).coords ++
                    (nthD st.perimeters (e2 - 1) default).coords })
        (e2 - 1)
        { nthD st.perimeters (e2 - 1) default with
          merge_id := some e1,
          coords := [Coord.notice e1,
                     Coord.plist (nthD st.perimeters (e2 - 1) default).coords]
        }) i default = nthD st.perimeters i default := by
    intro i hi1 hi2
    rw [nthD_setNth_ne _ _ _ _ _ hi2, nthD_setNth_ne _ _ _ _ _ hi1]
  refine ⟨⟨?_, ?_⟩, ?_, ?_, ?_, ?_⟩
  · intro i hi
    rw [hLs] at hi
    by_cases hie2 : i = e2 - 1
    · subst hie2
      rw [hGet2]
      exact hal _ hlt2
    · by_cases hie1 : i = e1 - 1
      · subst hie1
        rw [hGet1]
        exact hal _ hlt1
      · rw [hGetO i hie1 hie2]
        exact hal i hi
  · rw [hLs]
    exact hnext
  · intro en hen
    rw [mem_registerCoords hh] at hen
    rw [hLs]
    rcases hen with ⟨hin, he2'⟩ | ⟨heg, hnin⟩
    · rw [he2']
      refine ⟨h11, h12, ?_⟩
      rw [hGet1]
      exact hlive1
    · obtain ⟨k1, k2, k3⟩ := hlive en heg
      refine ⟨k1, k2, ?_⟩
      by_cases hke2 : en.2 = e2
      · exfalso
        apply hnin
        have := hcoords en heg
        rw [hke2] at this
        exact this
      · by_cases hke1 : en.2 - 1 = e1 - 1
        · rw [hke1, hGet1]
          have hpe : nthD st.perimeters (en.2 - 1) default
              = nthD st.perimeters (e1 - 1) default := by rw [hke1]
          rw [hpe] at k3
          exact k3
        · rw [hGetO _ hke1 (fun hx => hke2 (by omega))]
          exact k3
  · intro en hen
    rw [mem_registerCoords hh] at hen
    rcases hen with ⟨hin, he2'⟩ | ⟨heg, hnin⟩
    · rw [he2', hGet1]
      simp only []
      exact List.mem_append.mpr (Or.inr hin)
    · obtain ⟨k1, k2, _⟩ := hlive en heg
      by_cases hke2 : en.2 = e2
      · exfalso
        apply hnin
        have := hcoords en heg
        rw [hke2] at this
        exact this
      · by_cases hke1 : en.2 - 1 = e1 - 1
        · rw [hke1, hGet1]
          simp only []
          refine List.mem_append.mpr (Or.inl ?_)
          have := hcoords en heg
          rw [hke1] at this
          exact this
        · rw [hGetO _ hke1 (fun hx => hke2 (by omega))]
          exact hcoords en heg
  · intro i hi hm c hc
    rw [hLs] at hi
    by_cases hie2 : i = e2 - 1
    · subst hie2
      rw [hGet2] at hm
      simp at hm
    · by_cases hie1 : i = e1 - 1
      · subst hie1
        rw [hGet1] at hm hc
        simp only [] at hm hc
        rcases List.mem_append.mp hc with hc | hc
        · exact hpts _ hlt1 hm c hc
        · exact hpts _ hlt2 hlive2 c hc
      · rw [hGetO i hie1 hie2] at hm hc
        exact hpts i hi hm c hc
  · intro i hi hm c hc
    rw [hLs] at hi
    by_cases hie2 : i = e2 - 1
    · subst hie2
      rw [hGet2] at hm
      simp at hm
    · by_cases hie1 : i = e1 - 1
      · subst hie1
        rw [hGet1] at hm hc
        simp only [] at hm hc
        rcases List.mem_append.mp hc with hc | hc
        · exact gridLookup_ne_none_registerCoords (hreg _ hlt1 hm c hc) hh
        · rw [gridLookup_registerCoords _ _ _ hh]
          simp [hc]
      · rw [hGetO i hie1 hie2] at hm hc
        exact gridLookup_ne_none_registerCoords (hreg i hi hm c hc) hh

theorem processBurn_inv {st : EGState} {cands : List Pt} {st' : EGState}
    (hI : Inv st) (hp : processBurn st cands = .ok st') : Inv st' := by
  rcases hpc : partitionCands st.event_grid cands with ⟨ids, new⟩
  simp only [processBurn, hpc] at hp
  cases ids with
  | nil =>
    simp only [] at hp
    injection hp with h
    subst h
    exact inv_create hI new
  | cons e tail =>
    cases tail with
    | nil =>
      simp only [] at hp
      have hmem : e ∈ (partitionCands st.event_grid cands).1 := by
        rw [hpc]; exact List.mem_singleton_self e
      obtain ⟨c0, hc0⟩ := partitionCands_ids hmem
      obtain ⟨k1, k2, _⟩ := hI.2.1 (c0, e) (mem_of_gridLookup hc0)
      simp only [] at k1 k2
      by_cases hnew : new = []
      · rw [if_pos hnew] at hp
        injection hp with h
        subst h
        exact hI
      · rw [if_neg hnew, pyIdx_eventId st.perimeters default k1 k2] at hp
        simp only [] at hp
        rw [pySet_eventId _ _ k1 k2] at hp
        injection hp with h
        subst h
        exact inv_extend hI ⟨c0, hc0⟩ new
    | cons e2 rest =>
      simp only [] at hp
      have hmem1 : e ∈ (partitionCands st.event_grid cands).1 := by
        rw [hpc]; exact List.mem_cons_self _ _
      have hmem2 : e2 ∈ (partitionCands st.event_grid cands).1 := by
        rw [hpc]; exact List.mem_cons_of_mem _ (List.mem_cons_self _ _)
      obtain ⟨c1, hc1⟩ := partitionCands_ids hmem1
      obtain ⟨c2, hc2⟩ := partitionCands_ids hmem2
      obtain ⟨k11, k12, _⟩ := hI.2.1 (c1, e) (mem_of_gridLookup hc1)
      obtain ⟨k21, k22, hlive2⟩ := hI.2.1 (c2, e2) (mem_of_gridLookup hc2)
      simp only [] at k11 k12 k21 k22 hlive2
      have hnd := partitionCands_nodup st.event_grid cands
      rw [hpc] at hnd
      have hne : e ≠ e2 := by
        intro hcon
        exact (List.nodup_cons.mp hnd).1 (hcon ▸ List.mem_cons_self _ _)
      have hh : ∀ c ∈ (nthD st.perimeters (e2 - 1) default).coords,
          c.hashable = true :=
        fun c hc => Coord.hashable_of_isPt
          (hI.2.2.2.1 _ (by omega) hlive2 c hc)
      rw [merge_perimeters_ok st.event_grid st.perimeters e e2
        k11 k12 k21 k22 hne hh] at hp
      simp only [] at hp
      injection hp with h
      subst h
      exact inv_merge hI ⟨c1, hc1⟩ ⟨c2, hc2⟩ hne

theorem runSteps_inv {cs : List (List Pt)} :
    ∀ {st st' : EGState}, Inv st → runSteps st cs = .ok st' → Inv st' := by
  induction cs with
  | nil =>
    intro st st' hI h
    rw [runSteps] at h
    injection h with h
    subst h
    exact hI
  | cons c cs ih =>
    intro st st' hI h
    rw [runSteps] at h
    cases hpb : processBurn st c with
    | error e => rw [hpb] at h; simp at h
    | ok st1 =>
      rw [hpb] at h
      exact ih (processBurn_inv hI hpb) h

theorem pyResolve_lt {len : Nat} {i : Int} {n : Nat}
    (h : pyResolve len i = some n) : n < len := by
  unfold pyResolve at h
  split_ifs at h with h1 h2
  · injection h with h
    omega
  · injection h with h
    omega

theorem nthD_map {α β : Type} (f : α → β) (l : List α) (n : Nat) (d : α) :
    nthD (l.map f) n (f d) = f (nthD l n d) := by
  induction l generalizing n with
  | nil => rfl
  | cons a l ih =>
    cases n with
    | zero => rfl
    | succ m => simpa [nthD] using ih m

/-! ## Claim theorems -/

/-- C2: a call of `merge_perimeters` whose `obsolete_id` refers to an
already-tombstoned perimeter (its coords have the
`["Merged with event {s}", old_points]` shape left by a previous merge)
raises a TypeError when the dict-update loop reaches the unhashable inner
list; it neither silently no-ops nor silently alters any perimeter's point
set (the error is raised before the survivor's coords are touched, so
every perimeter's coords are exactly as before the call). -/
theorem C2_merge_tombstoned_raises (g : Grid) (perims : List Perim)
    (event_id obsolete_id s : Nat) (ps : List Coord) (po : Perim)
    (hidx : pyIdx perims default ((obsolete_id : Int) - 1) = some po)
    (htomb : po.coords = [Coord.notice s, Coord.plist ps]) :
    (merge_perimeters g perims event_id obsolete_id).2 = some PyErr.typeError ∧
    ((merge_perimeters g perims event_id obsolete_id).1.2).map Perim.coords
      = perims.map Perim.coords := by
  have hidx0 := hidx
  cases hres : pyResolve perims.length ((obsolete_id : Int) - 1) with
  | none =>
    rw [pyIdx, hres] at hidx
    simp at hidx
  | some n =>
    rw [pyIdx, hres] at hidx
    simp only [Option.some.injEq] at hidx
    have hn : n < perims.length := pyResolve_lt hres
    have hreg : registerCoords g event_id po.coords
        = (gridUpdate g (Coord.notice s) event_id, some PyErr.typeError) := by
      rw [htomb]
      rfl
    unfold merge_perimeters
    rw [hidx0]
    simp only [hreg]
    refine ⟨trivial, ?_⟩
    have hset : pySet perims ((obsolete_id : Int) - 1)
        { po with merge_id := some event_id }
        = setNth perims n { po with merge_id := some event_id } := by
      rw [pySet, hres]
    rw [hset, map_setNth]
    have hc : Perim.coords { po with merge_id := some event_id }
        = po.coords := rfl
    rw [hc, ← hidx]
    have hz : (nthD perims n default).coords
        = nthD (perims.map Perim.coords) n (Perim.coords default) :=
      (nthD_map Perim.coords perims n default).symm
    rw [hz, setNth_self]
    rw [List.length_map]
    exact hn

/-- Witness for C2 at a concrete store: one perimeter, already tombstoned
by a merge into event 1, merged again as obsolete of event 2. -/
theorem C2_merge_tombstoned_raises_witness :
    (merge_perimeters []
      [⟨1, some 1, [Coord.notice 1, Coord.plist []]⟩] 2 1).2
      = some PyErr.typeError ∧
    ((merge_perimeters []
      [⟨1, some 1, [Coord.notice 1, Coord.plist []]⟩] 2 1).1.2).map Perim.coords
      = [(⟨1, some 1, [Coord.notice 1, Coord.plist []]⟩ : Perim)].map
          Perim.coords :=
  C2_merge_tombstoned_raises [] _ 2 1 1 []
    ⟨1, some 1, [Coord.notice 1, Coord.plist []]⟩ (by decide) (by decide)

/-- C3 counterexample: the stitcher is a single pass, not a loop to a
fixed point.  On `chainRows` (a is adjacent to b and c; c only to a;
scan order b, a, c) the pass merges c into a and stops, leaving the two
surviving ids a and b still spatially and temporally adjacent by the
code's own criteria — the claimed consequence of fixed-point iteration is
false for this input. -/
theorem C3_single_pass_cx :
    stitchPass exCfg chainRows =
      .ok ([⟨"b", 18, 4, 4⟩, ⟨"a", 0, 0, 0⟩, ⟨"a", 8, -4, -4⟩],
           [⟨"a", "c", true⟩]) ∧
    stillAdjacent exCfg
      [⟨"b", 18, 4, 4⟩, ⟨"a", 0, 0, 0⟩, ⟨"a", 8, -4, -4⟩] "a" "b" := by
  constructor
  · decide
  · decide

/-- C3 amended: the stitcher performs exactly one pass over the edge ids
(merging as it goes) and does not iterate to a fixed point: on
`chainRows` the single pass produces a table on which a further
identical pass still finds and performs a merge (b into a), so the
single-pass output was not a fixed point of the engine. -/
theorem C3_single_pass_amended :
    stitchPass exCfg chainRows =
      .ok ([⟨"b", 18, 4, 4⟩, ⟨"a", 0, 0, 0⟩, ⟨"a", 8, -4, -4⟩],
           [⟨"a", "c", true⟩]) ∧
    stitchPass exCfg [⟨"b", 18, 4, 4⟩, ⟨"a", 0, 0, 0⟩, ⟨"a", 8, -4, -4⟩] =
      .ok ([⟨"a", 18, 4, 4⟩, ⟨"a", 0, 0, 0⟩, ⟨"a", 8, -4, -4⟩],
           [⟨"b", "a", false⟩]) := by
  constructor
  · decide
  · decide

/-- C7 counterexample: the comparison day `d1` of a scanned id is frozen
at the start of its scan step, so after the scanned id's rows have been
relabelled away by an earlier candidate, a later adjacent candidate is
still "merged": on `staleRows` the stitcher logs a merge of the pair
(X, Z), yet in the output Z's row carries id X (day 14, alone) while X's
own day-5 row carries id Y — the pair does not end under one id at all,
in particular not under the id with the smaller minimum day. -/
theorem C7_stale_merge_cx :
    stitchPass exCfg staleRows =
      .ok ([⟨"Y", 3, 1, 0⟩, ⟨"Y", 3, 0, 1⟩, ⟨"Y", 5, 0, 0⟩,
            ⟨"X", 14, -1, -1⟩],
           [⟨"X", "Y", false⟩, ⟨"X", "Z", true⟩]) ∧
    (⟨"X", "Z", true⟩ : MergeEv) ∈
      [(⟨"X", "Y", false⟩ : MergeEv), ⟨"X", "Z", true⟩] ∧
    clusterRows [⟨"Y", 3, 1, 0⟩, ⟨"Y", 3, 0, 1⟩, ⟨"Y", 5, 0, 0⟩,
      ⟨"X", 14, -1, -1⟩] "X" = [⟨"X", 14, -1, -1⟩] ∧
    (⟨"Y", 5, 0, 0⟩ : SRow) ∈
      [(⟨"Y", 3, 1, 0⟩ : SRow), ⟨"Y", 3, 0, 1⟩, ⟨"Y", 5, 0, 0⟩,
       ⟨"X", 14, -1, -1⟩] ∧
    ("X" : String) ≠ "Y" := by
  refine ⟨?_, ?_, ?_, ?_, ?_⟩ <;> decide

/-- C7 amended: when the scanned id still holds its rows at merge time the
relabelling does follow the smaller day-range minimum; in particular the
claim's two-adjacent-tile scenario holds: tile A's day-50 edge detection
and tile B's day-52 edge detection within the spatial buffer are merged
by the stitcher into A's id, and the resulting event's earliest day
is 50. -/
theorem C7_two_tile_scenario :
    stitchPass exCfg twoTileRows =
      .ok ([⟨"A_1", 50, 0, 10⟩, ⟨"A_1", 52, 1, 11⟩],
           [⟨"A_1", "B_1", true⟩]) ∧
    minD ((clusterRows [⟨"A_1", 50, 0, 10⟩, ⟨"A_1", 52, 1, 11⟩]
      "A_1").map (fun r => r.day)) = 50 ∧
    clusterRows [⟨"A_1", 50, 0, 10⟩, ⟨"A_1", 52, 1, 11⟩] "B_1" = [] := by
  refine ⟨?_, ?_, ?_⟩ <;> decide

/-- C10: candidate selection does not filter window cells by positivity:
on `zeroJoinInput` (detection day 3 at cell (0,0), temporal_param 5) the
never-burning neighbour cell at x-coordinate 11 satisfies
`|3 - 0| ≤ temporal_param` and is registered as a member of event 1 with
day value 0 — a non-detection cell becomes part of an event perimeter. -/
theorem C10_zero_cell_joins_event :
    get_event_perimeters zeroJoinInput =
      .ok [⟨1, none, [Coord.pt (0, 10, 3), Coord.pt (0, 11, 0)]⟩] ∧
    (∀ t < zeroJoinInput.nt, zeroJoinInput.val t 0 1 = 0) ∧
    Coord.pt (0, 11, 0) ∈
      [Coord.pt ((0 : Int), (10 : Int), (3 : Int)), Coord.pt (0, 11, 0)] ∧
    |(3 : Int) - 0| ≤ zeroJoinInput.temporal_param := by
  refine ⟨?_, ?_, ?_, ?_⟩ <;> decide

/-- C6 counterexample: the per-tile table's edge flag is promoted to the
whole event (`if any(edge): edge = [True ...]`): a perimeter with one
point on the tile border (y = 10) and one interior point (12, 22) yields
edge = true for the interior row as well, although `edgeCheck` itself
rejects that point — the claimed row-level iff is false. -/
theorem C6_edge_flag_cx :
    perimRows (tileEdgesY exYs 1) (tileEdgesX exXs 1) 500 1
      [(10, 21, 100), (12, 22, 100)] =
      [⟨1, 100, 10, 21, true⟩, ⟨1, 100, 12, 22, true⟩] ∧
    edgeCheck (tileEdgesY exYs 1) (tileEdgesX exXs 1) 12 22 500 = false := by
  constructor
  · decide
  · decide

/-- C6 amended: in the per-tile output table a row's edge flag is true if
and only if SOME point of the row's event is an edge case (its y among the
first or last spatial_param y values, or its x among the first or last
spatial_param x values); interior points of an event that touches the
border therefore also carry edge = true. -/
theorem C6_edge_flag_amended (yedges xedges : List Int) (spb : Int)
    (eid : Nat) (pts : List Pt) (r : TRow)
    (hr : r ∈ perimRows yedges xedges spb eid pts) :
    r.edge = true ↔
      ∃ q ∈ pts, edgeCheck yedges xedges q.1 q.2.1 spb = true := by
  unfold perimRows at hr
  obtain ⟨q, hq, hqr⟩ := List.mem_map.mp hr
  subst hqr
  by_cases hany :
      pts.any (fun s => edgeCheck yedges xedges s.1 s.2.1 spb) = true
  · simp only [hany, if_true]
    simpa using List.any_eq_true.mp hany
  · rw [Bool.not_eq_true] at hany
    simp only [hany]
    rw [if_neg (by simp)]
    constructor
    · intro hq'
      exact ⟨q, hq, hq'⟩
    · rintro ⟨sq, hsq, hfs⟩
      exfalso
      have hx : pts.any
          (fun sp => edgeCheck yedges xedges sp.1 sp.2.1 spb) = true :=
        List.any_eq_true.mpr ⟨sq, hsq, hfs⟩
      rw [hany] at hx
      cases hx

/-- C5: for every in-range cell of a grid whose dimensions exceed twice
spatial_param, `get_spatial_window` returns a slice that is clipped inside
`[0, ny) x [0, nx)` with no wrap-around and non-empty on both axes;
resolving the returned (possibly negative, Python-style) center index
against the extracted window addresses exactly the cell (y, x); the
returned origin is the window's top-left corner; and the window is
full-size (2*spatial_param+1 per axis) in the interior but strictly
smaller near the tile borders. -/
theorem C5_spatial_window_ok (sp y x ny nx : Int)
    (hsp : 0 ≤ sp) (hy0 : 0 ≤ y) (hy : y < ny) (hx0 : 0 ≤ x) (hx : x < nx)
    (hny : 2 * sp < ny) (hnx : 2 * sp < nx) :
    windowOk sp y x ny nx := by
  unfold windowOk get_spatial_window sliceLen resolveIdx
  dsimp only
  split_ifs <;> omega

/-- Witness for C5 at spatial_param 5 on a 20 x 30 grid, at cell (17, 3):
y is in the bottom edge zone (negative returned center index) and x in the
left edge zone. -/
theorem C5_spatial_window_ok_witness : windowOk 5 17 3 20 30 :=
  C5_spatial_window_ok 5 17 3 20 30 (by decide) (by decide) (by decide)
    (by decide) (by decide) (by decide) (by decide)

theorem foldl_max_pos (l : List Int) (d : Int) :
    0 < l.foldl max d ↔ 0 < d ∨ ∃ a ∈ l, 0 < a := by
  induction l generalizing d with
  | nil => simp
  | cons a l ih =>
    rw [List.foldl_cons, ih]
    simp only [List.exists_mem_cons_iff, lt_max_iff]
    tauto

theorem mem_rowMajor {ny nx : Nat} {y x : Nat} :
    (y, x) ∈ rowMajor ny nx ↔ y < ny ∧ x < nx := by
  unfold rowMajor
  simp [List.mem_flatMap, List.mem_map, List.mem_range]

theorem rowMajor_pairwise_aux (nx : Nat) (l1 : List Nat)
    (h : l1.Pairwise (· < ·)) :
    List.Pairwise rmLt
      (l1.flatMap (fun y => (List.range nx).map (fun x => (y, x)))) := by
  induction l1 with
  | nil => simp
  | cons y ys ih =>
    rw [List.flatMap_cons, List.pairwise_append]
    obtain ⟨hy, hys⟩ := List.pairwise_cons.mp h
    refine ⟨?_, ih hys, ?_⟩
    · rw [List.pairwise_map]
      exact (List.pairwise_lt_range nx).imp (fun hab => Or.inr ⟨rfl, hab⟩)
    · intro a ha b hb
      obtain ⟨x1, _, hax⟩ := List.mem_map.mp ha
      obtain ⟨y2, hy2, x2, _, hbx⟩ := by
        simpa [List.mem_flatMap, List.mem_map] using hb
      rw [← hax, ← hbx]
      exact Or.inl (hy y2 hy2)

theorem rowMajor_pairwise (ny nx : Nat) :
    List.Pairwise rmLt (rowMajor ny nx) :=
  rowMajor_pairwise_aux nx (List.range ny) (List.pairwise_lt_range ny)

theorem timeMax_pos (inp : BurnInput) (hnt : 0 < inp.nt) (y x : Nat) :
    0 < timeMax inp y x ↔ ∃ t < inp.nt, 0 < inp.val t y x := by
  unfold timeMax
  cases hl : (List.range inp.nt).map (fun t => inp.val t y x) with
  | nil =>
    exfalso
    have := congrArg List.length hl
    simp at this
    omega
  | cons d rest =>
    rw [foldl_max_pos]
    have hiff : (0 < d ∨ ∃ a ∈ rest, 0 < a) ↔
        ∃ a ∈ d :: rest, 0 < a := by
      rw [List.exists_mem_cons_iff]
    rw [hiff, ← hl]
    constructor
    · rintro ⟨a, ha, hpos⟩
      obtain ⟨t, ht, rfl⟩ := List.mem_map.mp ha
      exact ⟨t, List.mem_range.mp ht, hpos⟩
    · rintro ⟨t, ht, hv⟩
      exact ⟨_, List.mem_map.mpr ⟨t, List.mem_range.mpr ht, rfl⟩, hv⟩

/-- C8: `get_availables` returns exactly the in-range cells whose maximum
value over the time axis is strictly positive; the maximum is positive
precisely when some time step holds a positive value; the sequence is
ordered row-major (y ascending, then x ascending); and a grid with no
positive value anywhere yields the empty sequence rather than an error. -/
theorem C8_availables_exact (inp : BurnInput) (hnt : 0 < inp.nt) :
    (∀ y x : Nat, ((y, x) ∈ get_availables inp ↔
      y < inp.ny ∧ x < inp.nx ∧ 0 < timeMax inp y x)) ∧
    (∀ y x : Nat,
      (0 < timeMax inp y x ↔ ∃ t < inp.nt, 0 < inp.val t y x)) ∧
    List.Pairwise rmLt (get_availables inp) ∧
    ((∀ t y x : Nat, t < inp.nt → y < inp.ny → x < inp.nx →
        inp.val t y x ≤ 0) →
      get_availables inp = []) := by
  have hmem : ∀ y x : Nat, ((y, x) ∈ get_availables inp ↔
      y < inp.ny ∧ x < inp.nx ∧ 0 < timeMax inp y x) := by
    intro y x
    unfold get_availables
    rw [List.mem_filter]
    rw [mem_rowMajor]
    simp [and_assoc]
  refine ⟨hmem, fun y x => timeMax_pos inp hnt y x, ?_, ?_⟩
  · exact List.Pairwise.sublist (List.filter_sublist _) (rowMajor_pairwise inp.ny inp.nx)
  · intro hall
    apply List.eq_nil_iff_forall_not_mem.mpr
    rintro ⟨y, x⟩ hmem'
    obtain ⟨hy, hx, hpos⟩ := (hmem y x).mp hmem'
    obtain ⟨t, ht, hv⟩ := (timeMax_pos inp hnt y x).mp hpos
    exact absurd (hall t y x ht hy hx) (by omega)

/-- Witness for C8 at the concrete one-step tile `zeroJoinInput`. -/
theorem C8_availables_exact_witness :
    (∀ y x : Nat, ((y, x) ∈ get_availables zeroJoinInput ↔
      y < zeroJoinInput.ny ∧ x < zeroJoinInput.nx ∧
      0 < timeMax zeroJoinInput y x)) ∧
    (∀ y x : Nat,
      (0 < timeMax zeroJoinInput y x ↔
        ∃ t < zeroJoinInput.nt, 0 < zeroJoinInput.val t y x)) ∧
    List.Pairwise rmLt (get_availables zeroJoinInput) ∧
    ((∀ t y x : Nat, t < zeroJoinInput.nt → y < zeroJoinInput.ny →
        x < zeroJoinInput.nx → zeroJoinInput.val t y x ≤ 0) →
      get_availables zeroJoinInput = []) :=
  C8_availables_exact zeroJoinInput (by decide)

/-- C4: throughout per-tile classification — after any prefix of the burn
steps derived from any input grid — every entry of the EventGridMap maps
to an event id that addresses a live, non-tombstoned perimeter; in
particular no sequence of merges leaves a grid entry pointing to a
tombstoned id. -/
theorem C4_grid_maps_to_live_ids (inp : BurnInput) (n : Nat) (st' : EGState)
    (h : runSteps initState ((eventSteps inp).take n) = .ok st') :
    ∀ e ∈ st'.event_grid,
      1 ≤ e.2 ∧ e.2 ≤ st'.perimeters.length ∧
      (nthD st'.perimeters (e.2 - 1) default).merge_id = none :=
  (runSteps_inv inv_initState h).2.1

/-- Witness for C4 right after the merging step of `mergeDropInput`. -/
theorem C4_grid_maps_to_live_ids_witness :
    ∃ st', runSteps initState ((eventSteps mergeDropInput).take 3)
        = .ok st' ∧
      ∀ e ∈ st'.event_grid,
        1 ≤ e.2 ∧ e.2 ≤ st'.perimeters.length ∧
        (nthD st'.perimeters (e.2 - 1) default).merge_id = none :=
  ⟨_, rfl, C4_grid_maps_to_live_ids mergeDropInput 3 _ rfl⟩

/-- C9: at every point of per-tile classification the perimeter list is
positionally aligned with event ids — the perimeter at index i carries
event_id = i + 1 (so `perimeters[id - 1]` addresses the intended
perimeter, tombstoned perimeters keep their original position, and ids
are consecutive from 1) — and `next_event_id` is one past the end. -/
theorem C9_perimeter_alignment (inp : BurnInput) (n : Nat) (st' : EGState)
    (h : runSteps initState ((eventSteps inp).take n) = .ok st') :
    (∀ i < st'.perimeters.length,
      (nthD st'.perimeters i default).event_id = i + 1) ∧
    st'.next_event_id = st'.perimeters.length + 1 :=
  (runSteps_inv inv_initState h).1

/-- Witness for C9 after all five burn steps of `mergeDropInput` (the
list then holds the live survivor at index 0 and the tombstoned event 2
still at index 1). -/
theorem C9_perimeter_alignment_witness :
    ∃ st', runSteps initState ((eventSteps mergeDropInput).take 5)
        = .ok st' ∧
      (∀ i < st'.perimeters.length,
        (nthD st'.perimeters i default).event_id = i + 1) ∧
      st'.next_event_id = st'.perimeters.length + 1 :=
  ⟨_, rfl, C9_perimeter_alignment mergeDropInput 5 _ rfl⟩

/-- C1 counterexample: on `mergeDropInput` the third burn step finds
candidates under the two distinct event ids 1 and 2 plus the fresh point
(1, 2, 112).  The step merges as described — event 2 is tombstoned with
merge_id 1, its points are appended to event 1 and re-pointed — but the
fresh candidate point is discarded: after the step it is neither in the
EventGridMap nor in the survivor's point set, contradicting the claim
that new_points join the survivor. -/
theorem C1_new_points_dropped_cx :
    partitionCands mergeStepState.event_grid mergeStepCands
      = ([1, 2], [(1, 2, 112)]) ∧
    runSteps initState ((eventSteps mergeDropInput).take 2)
      = .ok mergeStepState ∧
    gridLookup mergeStepState.event_grid (Coord.pt (1, 2, 112)) = none ∧
    (runSteps initState ((eventSteps mergeDropInput).take 3)).map
      (fun st => (gridLookup st.event_grid (Coord.pt (1, 2, 112)),
        decide (Coord.pt (1, 2, 112) ∈ (nthD st.perimeters 0 default).coords),
        (nthD st.perimeters 1 default).merge_id,
        (nthD st.perimeters 0 default).coords,
        (nthD st.perimeters 1 default).coords))
      = .ok (none, false, some 1,
        [Coord.pt (0, 0, 105), Coord.pt (1, 1, 110), Coord.pt (1, 1, 115),
         Coord.pt (0, 2, 120)],
        [Coord.notice 1,
         Coord.plist [Coord.pt (1, 1, 115), Coord.pt (0, 2, 120)]]) := by
  refine ⟨?_, ?_, ?_, ?_⟩ <;> decide

/-- C1 amended: when the candidate points of a burn step fall under two or
more distinct existing event ids, the assigner merges the first two
discovered ids — the first as survivor, the second as obsolete: the
obsolete perimeter's points are re-pointed to the survivor in the
EventGridMap and appended to the survivor's point set, and the obsolete
id is tombstoned — but the not-yet-assigned candidate points (new_points)
are discarded at this step: they are neither registered in the
EventGridMap under any id nor added to the survivor's point set. -/
theorem C1_merge_step_amended {st : EGState} {cands : List Pt}
    {e1 e2 : Nat} {rest : List Nat} {new : List Pt}
    (hI : Inv st)
    (hpc : partitionCands st.event_grid cands = (e1 :: e2 :: rest, new)) :
    ∃ st', processBurn st cands = .ok st' ∧
      st'.next_event_id = st.next_event_id ∧
      (nthD st'.perimeters (e2 - 1) default).merge_id = some e1 ∧
      (nthD st'.perimeters (e2 - 1) default).coords
        = [Coord.notice e1,
           Coord.plist (nthD st.perimeters (e2 - 1) default).coords] ∧
      (nthD st'.perimeters (e1 - 1) default).coords
        = (nthD st.perimeters (e1 - 1) default).coords ++
          (nthD st.perimeters (e2 - 1) default).coords ∧
      (∀ c ∈ (nthD st.perimeters (e2 - 1) default).coords,
        gridLookup st'.event_grid c = some e1) ∧
      (∀ p ∈ new, gridLookup st'.event_grid (Coord.pt p) = none) ∧
      (∀ p ∈ new,
        Coord.pt p ∉ (nthD st'.perimeters (e1 - 1) default).coords) := by
  obtain ⟨⟨hal, hnext⟩, hlive, hcoords, hpts, hreg⟩ := hI
  have hmem1 : e1 ∈ (partitionCands st.event_grid cands).1 := by
    rw [hpc]; exact List.mem_cons_self _ _
  have hmem2 : e2 ∈ (partitionCands st.event_grid cands).1 := by
    rw [hpc]; exact List.mem_cons_of_mem _ (List.mem_cons_self _ _)
  obtain ⟨c1, hc1⟩ := partitionCands_ids hmem1
  obtain ⟨c2, hc2⟩ := partitionCands_ids hmem2
  obtain ⟨k11, k12, hlive1⟩ := hlive (c1, e1) (mem_of_gridLookup hc1)
  obtain ⟨k21, k22, hlive2⟩ := hlive (c2, e2) (mem_of_gridLookup hc2)
  simp only [] at k11 k12 hlive1 k21 k22 hlive2
  have hnd := partitionCands_nodup st.event_grid cands
  rw [hpc] at hnd
  have hne : e1 ≠ e2 := by
    intro hcon
    exact (List.nodup_cons.mp hnd).1 (hcon ▸ List.mem_cons_self _ _)
  have hne1 : e1 - 1 ≠ e2 - 1 := by omega
  have hlt1 : e1 - 1 < st.perimeters.length := by omega
  have hlt2 : e2 - 1 < st.perimeters.length := by omega
  have hh : ∀ c ∈ (nthD st.perimeters (e2 - 1) default).coords,
      c.hashable = true :=
    fun c hc => Coord.hashable_of_isPt (hpts _ hlt2 hlive2 c hc)
  have hnotin : ∀ p ∈ new,
      Coord.pt p ∉ (nthD st.perimeters (e2 - 1) default).coords := by
    intro p hp hin
    have hnone : gridLookup st.event_grid (Coord.pt p) = none :=
      partitionCands_new (by rw [hpc]; exact hp)
    exact hreg _ hlt2 hlive2 _ hin hnone
  have hnotin1 : ∀ p ∈ new,
      Coord.pt p ∉ (nthD st.perimeters (e1 - 1) default).coords := by
    intro p hp hin
    have hnone : gridLookup st.event_grid (Coord.pt p) = none :=
      partitionCands_new (by rw [hpc]; exact hp)
    exact hreg _ hlt1 hlive1 _ hin hnone
  refine ⟨⟨(registerCoords st.event_grid e1
      (nthD st.perimeters (e2 - 1) default).coords).1,
    st.next_event_id,
    setNth (setNth st.perimeters (e1 - 1)
      { nthD st.perimeters (e1 - 1) default with
        coords := (nthD st.perimeters (e1 - 1) default).coords ++
                  (nthD st.perimeters (e2 - 1) default).coords })
      (e2 - 1)
      { nthD st.perimeters (e2 - 1) default with
        merge_id := some e1,
        coords := [Coord.notice e1,
                   Coord.plist (nthD st.perimeters (e2 - 1) default).coords]
      }⟩, ?_, rfl, ?_, ?_, ?_, ?_, ?_, ?_⟩
  · simp only [processBurn, hpc]
    rw [merge_perimeters_ok st.event_grid st.perimeters e1 e2
      k11 k12 k21 k22 hne hh]
  · rw [nthD_setNth_eq _ _ _ _ (by rw [length_setNth]; exact hlt2)]
  · rw [nthD_setNth_eq _ _ _ _ (by rw [length_setNth]; exact hlt2)]
  · rw [nthD_setNth_ne _ _ _ _ _ hne1, nthD_setNth_eq _ _ _ _ hlt1]
  · intro c hc
    rw [gridLookup_registerCoords _ _ _ hh]
    simp [hc]
  · intro p hp
    rw [gridLookup_registerCoords _ _ _ hh]
    have h1 : Coord.pt p ∉ (nthD st.perimeters (e2 - 1) default).coords :=
      hnotin p hp
    have h2 : gridLookup st.event_grid (Coord.pt p) = none :=
      partitionCands_new (by rw [hpc]; exact hp)
    simp [h1, h2]
  · intro p hp
    rw [nthD_setNth_ne _ _ _ _ _ hne1, nthD_setNth_eq _ _ _ _ hlt1]
    simp only []
    rw [List.mem_append]
    rintro (hin | hin)
    · exact hnotin1 p hp hin
    · exact hnotin p hp hin

/-- Witness for C1 amended at the concrete merging step of
`mergeDropInput` (survivor 1, obsolete 2, one discarded fresh point). -/
theorem C1_merge_step_amended_witness :
    ∃ st', processBurn mergeStepState mergeStepCands = .ok st' ∧
      st'.next_event_id = mergeStepState.next_event_id ∧
      (nthD st'.perimeters (2 - 1) default).merge_id = some 1 ∧
      (nthD st'.perimeters (2 - 1) default).coords
        = [Coord.notice 1,
           Coord.plist (nthD mergeStepState.perimeters (2 - 1) default).coords] ∧
      (nthD st'.perimeters (1 - 1) default).coords
        = (nthD mergeStepState.perimeters (1 - 1) default).coords ++
          (nthD mergeStepState.perimeters (2 - 1) default).coords ∧
      (∀ c ∈ (nthD mergeStepState.perimeters (2 - 1) default).coords,
        gridLookup st'.event_grid c = some 1) ∧
      (∀ p ∈ [((1 : Int), (2 : Int), (112 : Int))],
        gridLookup st'.event_grid (Coord.pt p) = none) ∧
      (∀ p ∈ [((1 : Int), (2 : Int), (112 : Int))],
        Coord.pt p ∉ (nthD st'.perimeters (1 - 1) default).coords) :=
  C1_merge_step_amended
    (runSteps_inv inv_initState
      (show runSteps initState ((eventSteps mergeDropInput).take 2)
          = .ok mergeStepState by decide))
    (show partitionCands mergeStepState.event_grid mergeStepCands
        = (1 :: 2 :: [], [(1, 2, 112)]) by decide)

/-- Witness for C6 amended at the concrete two-point perimeter: the
interior row's flag is true because some point of its event is an edge
case. -/
theorem C6_edge_flag_amended_witness :
    (⟨1, 100, 12, 22, true⟩ : TRow).edge = true ↔
      ∃ q ∈ [((10 : Int), (21 : Int), (100 : Int)), (12, 22, 100)],
        edgeCheck (tileEdgesY exYs 1) (tileEdgesX exXs 1) q.1 q.2.1 500
          = true :=
  C6_edge_flag_amended (tileEdgesY exYs 1) (tileEdgesX exXs 1) 500 1
    [(10, 21, 100), (12, 22, 100)] ⟨1, 100, 12, 22, true⟩ (by decide)

end Firedpy
